import Mathlib

/-!
Verification of the storage layer of `namada` (files
`core/src/ledger/storage/mockdb.rs` and `macros/src/lib.rs`) against its
specification.

The backing store of `MockDB` is a `BTreeMap<String, Vec<u8>>`.  We model
Rust strings as lists of characters (`Str`), byte vectors as lists of
naturals (`Bytes`), and the `BTreeMap` as an association list that is kept
strictly sorted by key in lexicographic order, exactly the order in which
`BTreeMap` iterates.
-/

/-- A Rust `String` (a sequence of characters; keys here are ASCII). -/
abbrev Str := List Char

/-- A Rust `Vec<u8>` value. -/
abbrev Bytes := List Nat

/-- Lexicographic strict order on strings, as used by Rust's `Ord for String`
(byte-wise lexicographic comparison), which is the iteration and range order
of `BTreeMap<String, _>`. -/
def lexLt : Str → Str → Bool
  | _, [] => false
  | [], _ :: _ => true
  | a :: as, b :: bs => if a < b then true else if a = b then lexLt as bs else false

/-- The backing store of `MockDB`: a `BTreeMap<String, Vec<u8>>`, modelled as
an association list sorted strictly ascending by key. -/
abbrev DB := List (Str × Bytes)

/-- The `BTreeMap` invariant: entries strictly sorted by key. -/
def DBSorted (db : DB) : Prop :=
  db.Pairwise (fun a b => lexLt a.1 b.1 = true)

instance : DecidablePred DBSorted := fun db =>
  inferInstanceAs (Decidable (db.Pairwise _))

/-- `BTreeMap::get`. -/
def dbGet (k : Str) : DB → Option Bytes
  | [] => none
  | (k', v') :: rest => if k = k' then some v' else dbGet k rest

/-- `BTreeMap::insert`: returns the new map and the previous value at the
key, if any. -/
def dbInsert (k : Str) (v : Bytes) : DB → DB × Option Bytes
  | [] => ([(k, v)], none)
  | (k', v') :: rest =>
    if lexLt k k' then ((k, v) :: (k', v') :: rest, none)
    else if k = k' then ((k, v) :: rest, some v')
    else ((k', v') :: (dbInsert k v rest).1, (dbInsert k v rest).2)

/-- `BTreeMap::remove`: returns the new map and the removed value, if any. -/
def dbRemove (k : Str) : DB → DB × Option Bytes
  | [] => ([], none)
  | (k', v') :: rest =>
    if k = k' then (rest, some v')
    else ((k', v') :: (dbRemove k rest).1, (dbRemove k rest).2)

/-- `BTreeMap::range((Included(lo), Excluded(hi)))` on a sorted map: the
sub-list of entries with `lo ≤ key < hi`, in ascending key order. -/
def dbRange (lo hi : Str) (db : DB) : DB :=
  db.filter (fun kv => !lexLt kv.1 lo && lexLt kv.1 hi)

/-! ## Key-path splitting (`str::split(KEY_SEGMENT_SEPARATOR)`) -/

/-- Accumulator-based splitting on the key-segment separator `'/'`, mirroring
Rust's `path.split('/').collect::<Vec<_>>()`. -/
def splitAux : Str → Str → List Str
  | [], acc => [acc.reverse]
  | c :: cs, acc => if c = '/' then acc.reverse :: splitAux cs [] else splitAux cs (c :: acc)

/-- `path.split('/')` as a list of segments. -/
def splitSep (s : Str) : List Str := splitAux s []

/-! ## Storage keys (`types::storage::Key`) -/

/-- A storage `Key`: an ordered sequence of string segments. -/
abbrev Key := List Str

/-- `Key::to_string`: segments joined by the separator `'/'`. -/
def keyStr : Key → Str
  | [] => []
  | [s] => s
  | s :: rest => s ++ '/' :: keyStr rest

/-! ## Error type (`ledger::storage::Error`) -/

/-- The storage error type.  The Rust variants carry human-readable payloads
(a nested error or message); we keep only the data the code dispatches on. -/
inductive DBError
  | codingError
  | borshCodingError
  | keyError (seg : Str)
  | unknownKey (key : Str)
  | temporary
  deriving DecidableEq

/-- `Key::push`: appends one segment; fails with `KeyError` when the segment
contains the separator (the spec forbids the separator inside segments). -/
def keyPush (k : Key) (s : Str) : Except DBError Key :=
  if '/' ∈ s then .error (.keyError s) else .ok (k ++ [s])

/-- Modelled from the spec: `BlockHeight::raw()`, the key-segment encoding of
a height (the impl lives in `core/src/types/storage.rs`, outside the given
sources).  The spec fixes only that distinct heights yield distinct
separator-free segments and that the physical-key order of height-scoped
namespaces follows the order of heights; we use an order-preserving unary
encoding. -/
def rawHeight (h : Nat) : Str := List.replicate h '1'

/-! ## Value encoding (`types::encode` / `types::decode`) -/

/-- Modelled from the spec: stored values are opaque byte blobs produced by
a canonical injective serialization (`types::encode`, borsh), whose partial
inverse (`types::decode`) rejects malformed blobs.  A `Codec` packages the
two with their round-trip law. -/
class Codec (α : Type) where
  enc : α → Bytes
  dec : Bytes → Option α
  dec_enc : ∀ a, dec (enc a) = some a

/-- `types::encode`. -/
def encodeVal {α : Type} [Codec α] (a : α) : Bytes := Codec.enc a

/-- `types::decode`. -/
def decodeVal {α : Type} [Codec α] (bs : Bytes) : Option α := Codec.dec bs

/-- Scalars are serialized as unary blobs; any other blob is malformed. -/
instance : Codec Nat where
  enc n := List.replicate n 1
  dec bs := if bs.all (fun b => b == 1) then some bs.length else none
  dec_enc n := by simp [List.all_eq_true, List.eq_of_mem_replicate]

/-- Serialization of a list of naturals: each element as a unary blob
followed by a `0` terminator. -/
def encNatList : List Nat → Bytes
  | [] => []
  | n :: l => List.replicate n 1 ++ 0 :: encNatList l

/-- Partial inverse of `encNatList`. -/
def decNatList : Bytes → Option (List Nat)
  | [] => some []
  | 0 :: rest => (decNatList rest).map (fun l => 0 :: l)
  | 1 :: rest =>
    match decNatList rest with
    | some (n :: l) => some ((n + 1) :: l)
    | _ => none
  | _ :: _ => none

instance : Codec (List Nat) where
  enc := encNatList
  dec := decNatList
  dec_enc l := by
    induction l with
    | nil => rfl
    | cons n l ih =>
      induction n with
      | zero => simp [encNatList, decNatList, ih]
      | succ m ihm =>
        have h1 : encNatList ((m + 1) :: l) = 1 :: encNatList (m :: l) := by
          simp [encNatList, List.replicate_succ]
        rw [h1]
        simp only [decNatList]
        rw [ihm]

/-! ## Merkle tree store types (`merkle_tree::StoreType`, outside `src/`) -/

/-- Modelled from the spec: the fixed enumerated set of store types (logical
authenticated sub-trees).  The spec fixes only that the set is a fixed
enumeration; we use a two-element instance. -/
inductive StoreType
  | base
  | account
  deriving DecidableEq

/-- `StoreType::iter()`: all store types. -/
def StoreType.list : List StoreType := [.base, .account]

/-- The key-segment string of a store type (its `Display`). -/
def StoreType.toStr : StoreType → Str
  | .base => "base".data
  | .account => "account".data

/-- `StoreType::from_str`: parse a segment back into a store type; an
unrecognized sub-segment is an `UnknownKey` error (spec §7). -/
def StoreType.fromStr (s : Str) : Except DBError StoreType :=
  if s = "base".data then .ok .base
  else if s = "account".data then .ok .account
  else .error (.unknownKey s)

/-- Modelled from the spec: a decoded store blob tagged with its store type
(`merkle_tree::Store`).  The payload is opaque to the storage layer. -/
abbrev Store := StoreType × Nat

/-- `Store::encode`. -/
def storeEncode (s : Store) : Bytes := encodeVal s.2

/-- `StoreType::decode_store`: decodes an opaque store blob for this store
type; a malformed blob is a decoding error. -/
def StoreType.decodeStore (st : StoreType) (b : Bytes) : Except DBError Store :=
  match (decodeVal b : Option Nat) with
  | some n => .ok (st, n)
  | none => .error .codingError

/-- Modelled from the spec: `MerkleTreeStores` on the write side — for every
store type a committed root and an opaque store blob. -/
structure MerkleTreeStoresWrite where
  baseRoot : Nat
  baseStore : Nat
  accountRoot : Nat
  accountStore : Nat
  deriving DecidableEq

/-- `MerkleTreeStores::root`. -/
def MerkleTreeStoresWrite.root (w : MerkleTreeStoresWrite) : StoreType → Nat
  | .base => w.baseRoot
  | .account => w.accountRoot

/-- `MerkleTreeStores::store`. -/
def MerkleTreeStoresWrite.store (w : MerkleTreeStoresWrite) : StoreType → Store
  | .base => (.base, w.baseStore)
  | .account => (.account, w.accountStore)

/-- Modelled from the spec: `MerkleTreeStoresRead` — per store type an
optional root and optional store, filled in field by field during a read
(`default()` starts with everything absent). -/
structure MerkleTreeStoresRead where
  baseRoot : Option Nat
  baseStore : Option Nat
  accountRoot : Option Nat
  accountStore : Option Nat
  deriving DecidableEq

/-- `MerkleTreeStoresRead::default()`. -/
def MerkleTreeStoresRead.empty : MerkleTreeStoresRead := ⟨none, none, none, none⟩

/-- `MerkleTreeStoresRead::set_root`. -/
def MerkleTreeStoresRead.set_root (m : MerkleTreeStoresRead) :
    StoreType → Nat → MerkleTreeStoresRead
  | .base, r => { m with baseRoot := some r }
  | .account, r => { m with accountRoot := some r }

/-- `MerkleTreeStoresRead::set_store`. -/
def MerkleTreeStoresRead.set_store (m : MerkleTreeStoresRead) :
    Store → MerkleTreeStoresRead
  | (.base, s) => { m with baseStore := some s }
  | (.account, s) => { m with accountStore := some s }

/-- The fully-populated read record corresponding to a write record. -/
def MerkleTreeStoresWrite.toRead (w : MerkleTreeStoresWrite) : MerkleTreeStoresRead :=
  ⟨some w.baseRoot, some w.baseStore, some w.accountRoot, some w.accountStore⟩

/-! ## Block state records (`BlockStateWrite` / `BlockStateRead`, outside `src/`) -/

/-- Scalar type aliases: these are opaque to the storage layer, which only
encodes and decodes them; we model each as `Nat`. -/
abbrev BlockHeight := Nat

abbrev Epoch := Nat

abbrev BlockHash := Nat

abbrev AddressGen := Nat

abbrev BlockResults := Nat

abbrev DateTimeUtc := Nat

abbrev Header := Nat

/-- Modelled from the spec: `BlockStateWrite`, the aggregate record handed to
`write_block` on commit (the optional `tx_queue` feature is not modelled). -/
structure BlockStateWrite where
  merkle_tree_stores : MerkleTreeStoresWrite
  header : Option Header
  hash : BlockHash
  height : BlockHeight
  epoch : Epoch
  pred_epochs : List Epoch
  next_epoch_min_start_height : BlockHeight
  next_epoch_min_start_time : DateTimeUtc
  address_gen : AddressGen
  results : BlockResults
  deriving DecidableEq

/-- Modelled from the spec: `BlockStateRead`, the aggregate record returned
by `read_last_block` (no header: "the block header doesn't have to be
restored"). -/
structure BlockStateRead where
  merkle_tree_stores : MerkleTreeStoresRead
  hash : BlockHash
  height : BlockHeight
  epoch : Epoch
  pred_epochs : List Epoch
  next_epoch_min_start_height : BlockHeight
  next_epoch_min_start_time : DateTimeUtc
  address_gen : AddressGen
  results : BlockResults
  deriving DecidableEq

/-! ## Fixed key strings -/

def heightStr : Str := "height".data

def nextHeightStr : Str := "next_epoch_min_start_height".data

def nextTimeStr : Str := "next_epoch_min_start_time".data

def resultsPre : Str := "results/".data

def subspacePre : Str := "subspace/".data

/-! ## `DB for MockDB`: block-level operations -/

/-- The mutable accumulator of `read_last_block`'s height-scoped scan:
`merkle_tree_stores`, `hash`, `epoch`, `pred_epochs`, `address_gen`. -/
structure LoadAcc where
  merkle_tree_stores : MerkleTreeStoresRead
  hash : Option BlockHash
  epoch : Option Epoch
  pred_epochs : Option (List Epoch)
  address_gen : Option AddressGen
  deriving DecidableEq

/-- The accumulator's initial state (`MerkleTreeStoresRead::default()` and
four `None`s). -/
def LoadAcc.init : LoadAcc := ⟨MerkleTreeStoresRead.empty, none, none, none, none⟩

/-- One iteration of `read_last_block`'s scan over the height-scoped range:
split the path on the separator and dispatch on the second segment
(`tree` / `header` / `hash` / `epoch` / `pred_epochs` / `address_gen`);
anything else is an `UnknownKey` error (`unknown_key_error`). -/
def loadEntry (acc : LoadAcc) (path : Str) (bytes : Bytes) : Except DBError LoadAcc :=
  let segments := splitSep path
  match segments.get? 1 with
  | some seg =>
    if seg = "tree".data then
      match segments.get? 2 with
      | some s =>
        match StoreType.fromStr s with
        | .error e => .error e
        | .ok st =>
          match segments.get? 3 with
          | some s3 =>
            if s3 = "root".data then
              match (decodeVal bytes : Option Nat) with
              | some root =>
                .ok { acc with
                        merkle_tree_stores := acc.merkle_tree_stores.set_root st root }
              | none => .error .codingError
            else if s3 = "store".data then
              match st.decodeStore bytes with
              | .error e => .error e
              | .ok store =>
                .ok { acc with
                        merkle_tree_stores := acc.merkle_tree_stores.set_store store }
            else .error (.unknownKey path)
          | none => .error (.unknownKey path)
      | none => .error (.unknownKey path)
    else if seg = "header".data then
      -- the block header doesn't have to be restored
      .ok acc
    else if seg = "hash".data then
      match (decodeVal bytes : Option BlockHash) with
      | some h => .ok { acc with hash := some h }
      | none => .error .codingError
    else if seg = "epoch".data then
      match (decodeVal bytes : Option Epoch) with
      | some e => .ok { acc with epoch := some e }
      | none => .error .codingError
    else if seg = "pred_epochs".data then
      match (decodeVal bytes : Option (List Epoch)) with
      | some pe => .ok { acc with pred_epochs := some pe }
      | none => .error .codingError
    else if seg = "address_gen".data then
      match (decodeVal bytes : Option AddressGen) with
      | some ag => .ok { acc with address_gen := some ag }
      | none => .error .codingError
    else .error (.unknownKey path)
  | none => .error (.unknownKey path)

/-- The `for (path, bytes) in range` loop of `read_last_block`: an error in
any iteration aborts the whole call. -/
def loadLoop : LoadAcc → List (Str × Bytes) → Except DBError LoadAcc
  | acc, [] => .ok acc
  | acc, (path, bytes) :: rest =>
    match loadEntry acc path bytes with
    | .ok acc' => loadLoop acc' rest
    | .error e => .error e

/-- `MockDB::read_last_block`. -/
def read_last_block (db : DB) : Except DBError (Option BlockStateRead) :=
  -- Block height
  match dbGet heightStr db with
  | none => .ok none
  | some bs =>
    match (decodeVal bs : Option BlockHeight) with
    | none => .error .codingError
    | some height =>
      -- Block results
      match dbGet (resultsPre ++ rawHeight height) db with
      | none => .ok none
      | some bs =>
        match (decodeVal bs : Option BlockResults) with
        | none => .error .codingError
        | some results =>
          -- Epoch start height and time
          match dbGet nextHeightStr db with
          | none => .ok none
          | some bs =>
            match (decodeVal bs : Option BlockHeight) with
            | none => .error .codingError
            | some next_epoch_min_start_height =>
              match dbGet nextTimeStr db with
              | none => .ok none
              | some bs =>
                match (decodeVal bs : Option DateTimeUtc) with
                | none => .error .codingError
                | some next_epoch_min_start_time =>
                  -- Load data at the height
                  match loadLoop LoadAcc.init
                      (dbRange (rawHeight height ++ ['/'])
                        (rawHeight (height + 1) ++ ['/']) db) with
                  | .error e => .error e
                  | .ok acc =>
                    match acc.hash, acc.epoch, acc.pred_epochs, acc.address_gen with
                    | some hash, some epoch, some pred_epochs, some address_gen =>
                      .ok (some
                        { merkle_tree_stores := acc.merkle_tree_stores
                          hash, height, epoch, pred_epochs
                          next_epoch_min_start_height, next_epoch_min_start_time
                          address_gen, results })
                    | _, _, _, _ => .error .temporary

/-- `MockDB::write_block`. -/
def write_block (st : BlockStateWrite) (db : DB) : Except DBError DB := do
  -- Epoch start height and time
  let db := (dbInsert nextHeightStr (encodeVal st.next_epoch_min_start_height) db).1
  let db := (dbInsert nextTimeStr (encodeVal st.next_epoch_min_start_time) db).1
  let prefix_key : Key := [rawHeight st.height]
  -- Merkle tree
  let tree_key ← keyPush prefix_key "tree".data
  let db ← StoreType.list.foldlM (fun db stt => do
    let st_key ← keyPush tree_key stt.toStr
    let root_key ← keyPush st_key "root".data
    let db := (dbInsert (keyStr root_key)
      (encodeVal (st.merkle_tree_stores.root stt)) db).1
    let store_key ← keyPush st_key "store".data
    pure (dbInsert (keyStr store_key)
      (storeEncode (st.merkle_tree_stores.store stt)) db).1) db
  -- Block header
  let db ← match st.header with
    | some h => do
      let key ← keyPush prefix_key "header".data
      pure (dbInsert (keyStr key) (encodeVal h) db).1
    | none => pure db
  -- Block hash
  let key ← keyPush prefix_key "hash".data
  let db := (dbInsert (keyStr key) (encodeVal st.hash) db).1
  -- Block epoch
  let key ← keyPush prefix_key "epoch".data
  let db := (dbInsert (keyStr key) (encodeVal st.epoch) db).1
  -- Predecessor block epochs
  let key ← keyPush prefix_key "pred_epochs".data
  let db := (dbInsert (keyStr key) (encodeVal st.pred_epochs) db).1
  -- Address gen
  let key ← keyPush prefix_key "address_gen".data
  let db := (dbInsert (keyStr key) (encodeVal st.address_gen) db).1
  let db := (dbInsert heightStr (encodeVal st.height) db).1
  -- Block results
  let db := (dbInsert (resultsPre ++ rawHeight st.height) (encodeVal st.results) db).1
  return db

/-- `MockDB::read_block_header`. -/
def read_block_header (height : BlockHeight) (db : DB) : Except DBError (Option Header) := do
  let key ← keyPush [rawHeight height] "header".data
  match dbGet (keyStr key) db with
  | some v =>
    match (decodeVal v : Option Header) with
    | some h => .ok (some h)
    | none => .error .borshCodingError
  | none => .ok none

/-- The `for st in StoreType::iter()` loop of `read_merkle_tree_stores`:
a missing root or store returns `Ok(None)`; a malformed one is an error. -/
def readStoresLoop (tree_key : Key) (db : DB) :
    List StoreType → MerkleTreeStoresRead → Except DBError (Option MerkleTreeStoresRead)
  | [], acc => .ok (some acc)
  | stt :: rest, acc =>
    match keyPush tree_key stt.toStr with
    | .error e => .error e
    | .ok st_key =>
      match keyPush st_key "root".data with
      | .error e => .error e
      | .ok root_key =>
        match dbGet (keyStr root_key) db with
        | some b =>
          match (decodeVal b : Option Nat) with
          | some root =>
            let acc := acc.set_root stt root
            match keyPush st_key "store".data with
            | .error e => .error e
            | .ok store_key =>
              match dbGet (keyStr store_key) db with
              | some b2 =>
                match stt.decodeStore b2 with
                | .error e => .error e
                | .ok store => readStoresLoop tree_key db rest (acc.set_store store)
              | none => .ok none
          | none => .error .codingError
        | none => .ok none

/-- `MockDB::read_merkle_tree_stores`. -/
def read_merkle_tree_stores (height : BlockHeight) (db : DB) :
    Except DBError (Option MerkleTreeStoresRead) := do
  let tree_key ← keyPush [rawHeight height] "tree".data
  readStoresLoop tree_key db StoreType.list MerkleTreeStoresRead.empty

/-! ## `DB for MockDB`: subspace operations -/

/-- The physical key of an application key: `Key::parse("subspace").join(key)`
rendered to its string form. -/
def subspaceKey (key : Key) : Str := keyStr ("subspace".data :: key)

/-- `MockDB::read_subspace_val`. -/
def read_subspace_val (key : Key) (db : DB) : Except DBError (Option Bytes) :=
  .ok (dbGet (subspaceKey key) db)

/-- `MockDB::write_subspace_val`: the height argument is unused by this
backend; `current_len` is the new value's byte length. -/
def write_subspace_val (_height : BlockHeight) (key : Key) (value : Bytes) (db : DB) :
    Except DBError (Int × DB) :=
  match dbInsert (subspaceKey key) value db with
  | (db', some prev_value) => .ok ((value.length : Int) - prev_value.length, db')
  | (db', none) => .ok ((value.length : Int), db')

/-- `MockDB::delete_subspace_val`: the height argument is unused by this
backend. -/
def delete_subspace_val (_height : BlockHeight) (key : Key) (db : DB) :
    Except DBError (Int × DB) :=
  match dbRemove (subspaceKey key) db with
  | (db', some value) => .ok ((value.length : Int), db')
  | (db', none) => .ok (0, db')

/-! ## `DB for MockDB`: write batch -/

/-- `MockDBWriteBatch`: carries no data; batch writes are committed directly
by the `batch_*` methods. -/
structure MockDBWriteBatch where
  deriving DecidableEq

/-- `MockDB::batch()`. -/
def mkBatch : MockDBWriteBatch := {}

/-- `MockDB::exec_batch`: nothing to do, mutations were already applied. -/
def exec_batch (_batch : MockDBWriteBatch) (db : DB) : Except DBError DB :=
  .ok db

/-- `MockDB::batch_write_subspace_val`: applies the write immediately. -/
def batch_write_subspace_val (_batch : MockDBWriteBatch) (_height : BlockHeight)
    (key : Key) (value : Bytes) (db : DB) : Except DBError (Int × DB) :=
  match dbInsert (subspaceKey key) value db with
  | (db', some prev_value) => .ok ((value.length : Int) - prev_value.length, db')
  | (db', none) => .ok ((value.length : Int), db')

/-- `MockDB::batch_delete_subspace_val`: applies the delete immediately. -/
def batch_delete_subspace_val (_batch : MockDBWriteBatch) (_height : BlockHeight)
    (key : Key) (db : DB) : Except DBError (Int × DB) :=
  match dbRemove (subspaceKey key) db with
  | (db', some value) => .ok ((value.length : Int), db')
  | (db', none) => .ok (0, db')

/-! ## `DBIter for MockDB`: gas-metered prefix iteration -/

/-- `str::strip_prefix`. -/
def stripPre : Str → Str → Option Str
  | [], s => some s
  | _ :: _, [] => none
  | p :: ps, c :: cs => if p = c then stripPre ps cs else none

/-- The stream of `MockIterator`: all entries of the map (in ascending key
order) whose physical key starts with the requested prefix. -/
def mockIterList (pfx : Str) : List (Str × Bytes) → List (Str × Bytes)
  | [] => []
  | (key, val) :: rest =>
    if pfx.isPrefixOf key then (key, val) :: mockIterList pfx rest
    else mockIterList pfx rest

/-- The stream of `PrefixIterator<MockIterator>`: strips the namespace
prefix from each physical key (skipping entries where that fails) and pairs
each entry with its gas cost `len(logical key) + len(value)`. -/
def prefixIterList (dbPre : Str) : List (Str × Bytes) → List (Str × Bytes × Nat)
  | [] => []
  | (key, val) :: rest =>
    match stripPre dbPre key with
    | some k => (k, val, k.length + val.length) :: prefixIterList dbPre rest
    | none => prefixIterList dbPre rest

/-- `MockDB::iter_prefix` (named `iterPrefix` here): iteration over the
subspace namespace with the given prefix, yielding
`(logical key, value, gas)` triples. -/
def iterPrefix (pfx : Key) (db : DB) : List (Str × Bytes × Nat) :=
  prefixIterList subspacePre (mockIterList (subspacePre ++ keyStr pfx) db)

/-! ## Validity-predicate entrypoint glue (`macros/src/lib.rs`) -/

/-- The `_validate_tx` entrypoint generated by the `validity_predicate`
macro, after the pointer/length arguments have been deserialized: runs the
application-supplied handler and encodes its outcome as the host-visible
integer — `Ok(true) ↦ 1`, `Ok(false) ↦ 0`, `Err(_) ↦ 0` (the error is only
logged). -/
def validateTxEntry {Ctx Addr K V E : Type}
    (handler : Ctx → Bytes → Addr → K → V → Except E Bool)
    (ctx : Ctx) (tx_data : Bytes) (addr : Addr) (keys_changed : K)
    (verifiers : V) : Nat :=
  match handler ctx tx_data addr keys_changed verifiers with
  | .ok true => 1
  | .ok false => 0
  | .error _ => 0

/-! ## Named physical keys of the height-scoped namespace -/

def hashKeyStr (h : Nat) : Str := keyStr [rawHeight h, "hash".data]

def epochKeyStr (h : Nat) : Str := keyStr [rawHeight h, "epoch".data]

def predEpochsKeyStr (h : Nat) : Str := keyStr [rawHeight h, "pred_epochs".data]

def addressGenKeyStr (h : Nat) : Str := keyStr [rawHeight h, "address_gen".data]

def headerKeyStr (h : Nat) : Str := keyStr [rawHeight h, "header".data]

def rootKeyStr (h : Nat) (st : StoreType) : Str :=
  keyStr [rawHeight h, "tree".data, st.toStr, "root".data]

def storeKeyStr (h : Nat) (st : StoreType) : Str :=
  keyStr [rawHeight h, "tree".data, st.toStr, "store".data]

/-- The lower bound of `read_last_block`'s height-scoped scan:
`format!("{}/", height.raw())`. -/
def rangeLo (h : Nat) : Str := rawHeight h ++ ['/']

/-- The upper bound of the scan: `format!("{}/", height.next_height().raw())`. -/
def rangeHi (h : Nat) : Str := rawHeight (h + 1) ++ ['/']

/-- The state produced by a successful `write_block`: the explicit sequence
of `BTreeMap::insert`s the source performs, in source order. -/
def wbState (W : BlockStateWrite) (db : DB) : DB :=
  let db := (dbInsert nextHeightStr (encodeVal W.next_epoch_min_start_height) db).1
  let db := (dbInsert nextTimeStr (encodeVal W.next_epoch_min_start_time) db).1
  let db := (dbInsert (rootKeyStr W.height .base)
    (encodeVal (W.merkle_tree_stores.root .base)) db).1
  let db := (dbInsert (storeKeyStr W.height .base)
    (storeEncode (W.merkle_tree_stores.store .base)) db).1
  let db := (dbInsert (rootKeyStr W.height .account)
    (encodeVal (W.merkle_tree_stores.root .account)) db).1
  let db := (dbInsert (storeKeyStr W.height .account)
    (storeEncode (W.merkle_tree_stores.store .account)) db).1
  let db := match W.header with
    | some hd => (dbInsert (headerKeyStr W.height) (encodeVal hd) db).1
    | none => db
  let db := (dbInsert (hashKeyStr W.height) (encodeVal W.hash) db).1
  let db := (dbInsert (epochKeyStr W.height) (encodeVal W.epoch) db).1
  let db := (dbInsert (predEpochsKeyStr W.height) (encodeVal W.pred_epochs) db).1
  let db := (dbInsert (addressGenKeyStr W.height) (encodeVal W.address_gen) db).1
  let db := (dbInsert heightStr (encodeVal W.height) db).1
  (dbInsert (resultsPre ++ rawHeight W.height) (encodeVal W.results) db).1

/-- Classification of the height-scoped entries `read_last_block`'s scan
accepts without error: the recognized keys of §6 of the spec, carrying
well-formed (decodable) values; a `header` entry's value is never decoded. -/
def GoodEntry (h : Nat) (k : Str) (v : Bytes) : Prop :=
  (k = hashKeyStr h ∧ (decodeVal v : Option BlockHash).isSome = true) ∨
  (k = epochKeyStr h ∧ (decodeVal v : Option Epoch).isSome = true) ∨
  (k = predEpochsKeyStr h ∧ (decodeVal v : Option (List Epoch)).isSome = true) ∨
  (k = addressGenKeyStr h ∧ (decodeVal v : Option AddressGen).isSome = true) ∨
  (k = headerKeyStr h) ∨
  (k = rootKeyStr h .base ∧ (decodeVal v : Option Nat).isSome = true) ∨
  (k = storeKeyStr h .base ∧ (decodeVal v : Option Nat).isSome = true) ∨
  (k = rootKeyStr h .account ∧ (decodeVal v : Option Nat).isSome = true) ∨
  (k = storeKeyStr h .account ∧ (decodeVal v : Option Nat).isSome = true)

instance (h : Nat) (k : Str) (v : Bytes) : Decidable (GoodEntry h k v) := by
  unfold GoodEntry; infer_instance

/-- A height-scoped path the spec declares a protocol violation: its second
segment is not one of the six recognized ones, or it is a `tree` sub-key
whose trailing segment is not `root` or `store`. -/
def offendingPath (k : Str) : Bool :=
  match (splitSep k).get? 1 with
  | none => true
  | some s =>
    if s = "tree".data then
      match (splitSep k).get? 2 with
      | none => true
      | some s2 =>
        if s2 = "base".data ∨ s2 = "account".data then
          match (splitSep k).get? 3 with
          | none => true
          | some s3 => ¬(s3 = "root".data) ∧ ¬(s3 = "store".data)
        else false
    else
      ¬(s = "header".data ∨ s = "hash".data ∨ s = "epoch".data ∨
        s = "pred_epochs".data ∨ s = "address_gen".data)

/-! ## Staged mutation sequences (for batch/direct equivalence) -/

/-- One subspace mutation, as issued by application logic. -/
inductive Mutation
  | put (height : BlockHeight) (key : Key) (value : Bytes)
  | del (height : BlockHeight) (key : Key)

/-- Applies a sequence of mutations through the direct operations
`write_subspace_val` / `delete_subspace_val`, collecting the returned byte
deltas. -/
def applyDirect : DB → List Mutation → Except DBError (List Int × DB)
  | db, [] => .ok ([], db)
  | db, m :: rest =>
    match (match m with
           | .put h k v => write_subspace_val h k v db
           | .del h k => delete_subspace_val h k db) with
    | .error e => .error e
    | .ok (d, db') =>
      match applyDirect db' rest with
      | .error e => .error e
      | .ok (ds, dbf) => .ok (d :: ds, dbf)

/-- Stages a sequence of mutations through the batch operations
`batch_write_subspace_val` / `batch_delete_subspace_val`. -/
def applyStaged (b : MockDBWriteBatch) : DB → List Mutation → Except DBError (List Int × DB)
  | db, [] => .ok ([], db)
  | db, m :: rest =>
    match (match m with
           | .put h k v => batch_write_subspace_val b h k v db
           | .del h k => batch_delete_subspace_val b h k db) with
    | .error e => .error e
    | .ok (d, db') =>
      match applyStaged b db' rest with
      | .error e => .error e
      | .ok (ds, dbf) => .ok (d :: ds, dbf)

/-- The full batched protocol: create a batch, stage every mutation, then
commit it with `exec_batch`. -/
def applyBatched (db : DB) (ms : List Mutation) : Except DBError (List Int × DB) :=
  match applyStaged mkBatch db ms with
  | .error e => .error e
  | .ok (ds, db') =>
    match exec_batch mkBatch db' with
    | .error e => .error e
    | .ok dbf => .ok (ds, dbf)

/-- A concrete block state write used to instantiate the round-trip
theorem on the empty backend. -/
def wRoundtrip : BlockStateWrite :=
  { merkle_tree_stores := ⟨1, 2, 3, 4⟩
    header := some 5
    hash := 6
    height := 2
    epoch := 7
    pred_epochs := [40, 41]
    next_epoch_min_start_height := 8
    next_epoch_min_start_time := 9
    address_gen := 10
    results := 11 }

theorem lexLt_irrefl (a : Str) : lexLt a a = false := by
  induction a with
  | nil => rfl
  | cons c cs ih => simp [lexLt, ih]

theorem lexLt_trans {a b c : Str} (h₁ : lexLt a b = true) (h₂ : lexLt b c = true) :
    lexLt a c = true := by
  induction a generalizing b c with
  | nil =>
    cases b with
    | nil => simp [lexLt] at h₁
    | cons y ys =>
      cases c with
      | nil => simp [lexLt] at h₂
      | cons z zs => simp [lexLt]
  | cons x xs ih =>
    cases b with
    | nil => simp [lexLt] at h₁
    | cons y ys =>
      cases c with
      | nil => simp [lexLt] at h₂
      | cons z zs =>
        simp only [lexLt] at h₁ h₂ ⊢
        by_cases hxy : x < y
        · by_cases hyz : y < z
          · rw [if_pos (lt_trans hxy hyz)]
          · by_cases hyz' : y = z
            · subst hyz'
              rw [if_pos hxy]
            · rw [if_neg hyz, if_neg hyz'] at h₂
              exact absurd h₂ (by simp)
        · by_cases hxy' : x = y
          · subst hxy'
            rw [if_neg hxy, if_pos rfl] at h₁
            by_cases hxz : x < z
            · rw [if_pos hxz]
            · by_cases hxz' : x = z
              · subst hxz'
                rw [if_neg hxz, if_pos rfl] at h₂ ⊢
                exact ih h₁ h₂
              · rw [if_neg hxz, if_neg hxz'] at h₂
                exact absurd h₂ (by simp)
          · rw [if_neg hxy, if_neg hxy'] at h₁
            exact absurd h₁ (by simp)

theorem lexLt_asymm {a b : Str} (h : lexLt a b = true) : lexLt b a = false := by
  by_contra hb
  have hb' : lexLt b a = true := by
    cases hba : lexLt b a with
    | false => exact absurd hba hb
    | true => rfl
  have := lexLt_trans h hb'
  rw [lexLt_irrefl] at this
  exact Bool.false_ne_true this

theorem lexLt_connex {a b : Str} (h : a ≠ b) :
    lexLt a b = true ∨ lexLt b a = true := by
  induction a generalizing b with
  | nil =>
    cases b with
    | nil => exact absurd rfl h
    | cons y ys => left; rfl
  | cons x xs ih =>
    cases b with
    | nil => right; rfl
    | cons y ys =>
      rcases lt_trichotomy x y with hxy | hxy | hxy
      · left; simp [lexLt, hxy]
      · subst hxy
        have hne : xs ≠ ys := by
          intro he; exact h (by rw [he])
        rcases ih hne with h' | h'
        · left; simp [lexLt, h']
        · right; simp [lexLt, h']
      · right; simp [lexLt, hxy]

theorem lexLt_append_left (a x y : Str) :
    lexLt (a ++ x) (a ++ y) = lexLt x y := by
  induction a with
  | nil => rfl
  | cons c cs ih => simp [lexLt, ih]

theorem lexLt_append_self (a x : Str) : lexLt (a ++ x) a = false := by
  induction a with
  | nil => cases x <;> rfl
  | cons c cs ih => simp [lexLt, ih]

theorem ne_of_lexLt {a b : Str} (h : lexLt a b = true) : a ≠ b := by
  intro he
  subst he
  rw [lexLt_irrefl] at h
  exact Bool.false_ne_true h

@[simp]
theorem dbGet_nil (k : Str) : dbGet k [] = none := rfl

theorem dbGet_cons_self (k : Str) (v : Bytes) (rest : DB) :
    dbGet k ((k, v) :: rest) = some v := by
  simp [dbGet]

theorem dbGet_cons_ne {k k' : Str} (h : k ≠ k') (v' : Bytes) (rest : DB) :
    dbGet k ((k', v') :: rest) = dbGet k rest := by
  simp [dbGet, h]

theorem dbInsert_nil (k : Str) (v : Bytes) : dbInsert k v [] = ([(k, v)], none) := rfl

theorem dbInsert_cons_lt {k k' : Str} (h : lexLt k k' = true) (v v' : Bytes) (rest : DB) :
    dbInsert k v ((k', v') :: rest) = ((k, v) :: (k', v') :: rest, none) := by
  simp [dbInsert, h]

theorem dbInsert_cons_self (k : Str) (v v' : Bytes) (rest : DB) :
    dbInsert k v ((k, v') :: rest) = ((k, v) :: rest, some v') := by
  simp [dbInsert, lexLt_irrefl]

theorem dbInsert_cons_gt {k k' : Str} (h : lexLt k k' = false) (hne : k ≠ k')
    (v v' : Bytes) (rest : DB) :
    dbInsert k v ((k', v') :: rest) =
      ((k', v') :: (dbInsert k v rest).1, (dbInsert k v rest).2) := by
  simp [dbInsert, h, hne]

@[simp]
theorem dbGet_insert_self (k : Str) (v : Bytes) (db : DB) :
    dbGet k (dbInsert k v db).1 = some v := by
  induction db with
  | nil => simp [dbInsert_nil, dbGet_cons_self]
  | cons kv rest ih =>
    obtain ⟨k', v'⟩ := kv
    by_cases hlt : lexLt k k' = true
    · rw [dbInsert_cons_lt hlt, dbGet_cons_self]
    · by_cases he : k = k'
      · subst he
        rw [dbInsert_cons_self, dbGet_cons_self]
      · rw [dbInsert_cons_gt (Bool.not_eq_true _ ▸ hlt) he, dbGet_cons_ne he, ih]

theorem dbGet_insert_ne {k k' : Str} (h : k' ≠ k) (v : Bytes) (db : DB) :
    dbGet k' (dbInsert k v db).1 = dbGet k' db := by
  induction db with
  | nil => simp [dbInsert_nil, dbGet_cons_ne h]
  | cons kv rest ih =>
    obtain ⟨k₀, v₀⟩ := kv
    by_cases hlt : lexLt k k₀ = true
    · rw [dbInsert_cons_lt hlt, dbGet_cons_ne h]
    · by_cases he : k = k₀
      · subst he
        rw [dbInsert_cons_self, dbGet_cons_ne h, dbGet_cons_ne h]
      · rw [dbInsert_cons_gt (Bool.not_eq_true _ ▸ hlt) he]
        by_cases he' : k' = k₀
        · subst he'
          rw [dbGet_cons_self, dbGet_cons_self]
        · rw [dbGet_cons_ne he', dbGet_cons_ne he', ih]

/-- Any entry of the map after an insert is the inserted entry or an old one. -/
theorem dbInsert_mem {kv : Str × Bytes} {k : Str} {v : Bytes} {db : DB}
    (h : kv ∈ (dbInsert k v db).1) : kv = (k, v) ∨ kv ∈ db := by
  induction db with
  | nil =>
    rw [dbInsert_nil] at h
    left
    exact List.mem_singleton.1 h
  | cons kv₀ rest ih =>
    obtain ⟨k₀, v₀⟩ := kv₀
    by_cases hlt : lexLt k k₀ = true
    · rw [dbInsert_cons_lt hlt] at h
      rcases List.mem_cons.1 h with h' | h'
      · left; exact h'
      · right; exact h'
    · by_cases he : k = k₀
      · subst he
        rw [dbInsert_cons_self] at h
        rcases List.mem_cons.1 h with h' | h'
        · left; exact h'
        · right; exact List.mem_cons_of_mem _ h'
      · rw [dbInsert_cons_gt (Bool.not_eq_true _ ▸ hlt) he] at h
        rcases List.mem_cons.1 h with h' | h'
        · right; exact List.mem_cons.2 (Or.inl h')
        · rcases ih h' with h'' | h''
          · left; exact h''
          · right; exact List.mem_cons_of_mem _ h''

theorem dbInsert_sorted {db : DB} (hs : DBSorted db) (k : Str) (v : Bytes) :
    DBSorted (dbInsert k v db).1 := by
  induction db with
  | nil =>
    rw [dbInsert_nil]
    simp [DBSorted]
  | cons kv rest ih =>
    obtain ⟨k₀, v₀⟩ := kv
    rw [DBSorted, List.pairwise_cons] at hs
    obtain ⟨hall, hrest⟩ := hs
    by_cases hlt : lexLt k k₀ = true
    · rw [dbInsert_cons_lt hlt]
      refine List.pairwise_cons.2 ⟨?_, List.pairwise_cons.2 ⟨hall, hrest⟩⟩
      intro kv hkv
      rcases List.mem_cons.1 hkv with h | h
      · subst h; exact hlt
      · exact lexLt_trans hlt (hall kv h)
    · by_cases he : k = k₀
      · subst he
        rw [dbInsert_cons_self]
        exact List.pairwise_cons.2 ⟨hall, hrest⟩
      · have hgt : lexLt k₀ k = true := by
          rcases lexLt_connex he with h' | h'
          · exact absurd h' hlt
          · exact h'
        rw [dbInsert_cons_gt (Bool.not_eq_true _ ▸ hlt) he]
        refine List.pairwise_cons.2 ⟨?_, ih hrest⟩
        intro kv hkv
        rcases dbInsert_mem hkv with h | h
        · subst h; exact hgt
        · exact hall kv h

/-- On a sorted map, the previous-value component of `insert` is `get`. -/
theorem dbInsert_snd {db : DB} (hs : DBSorted db) (k : Str) (v : Bytes) :
    (dbInsert k v db).2 = dbGet k db := by
  induction db with
  | nil => rfl
  | cons kv rest ih =>
    obtain ⟨k₀, v₀⟩ := kv
    rw [DBSorted, List.pairwise_cons] at hs
    obtain ⟨hall, hrest⟩ := hs
    by_cases hlt : lexLt k k₀ = true
    · rw [dbInsert_cons_lt hlt]
      have hne : k ≠ k₀ := ne_of_lexLt hlt
      rw [dbGet_cons_ne hne]
      clear ih hne
      induction rest with
      | nil => rfl
      | cons kv₁ rest₁ ih₁ =>
        obtain ⟨k₁, v₁⟩ := kv₁
        have hk₁ : lexLt k₀ k₁ = true := hall _ (List.mem_cons_self _ _)
        have hne₁ : k ≠ k₁ := ne_of_lexLt (lexLt_trans hlt hk₁)
        rw [dbGet_cons_ne hne₁]
        exact ih₁ (fun kv hkv => hall kv (List.mem_cons_of_mem _ hkv))
          (List.Pairwise.sublist (List.sublist_cons_self _ _) hrest)
    · by_cases he : k = k₀
      · subst he
        rw [dbInsert_cons_self, dbGet_cons_self]
      · rw [dbInsert_cons_gt (Bool.not_eq_true _ ▸ hlt) he, dbGet_cons_ne he]
        exact ih hrest

/-- Removing an absent key leaves the map unchanged. -/
theorem dbRemove_absent {k : Str} {db : DB} (h : dbGet k db = none) :
    dbRemove k db = (db, none) := by
  induction db with
  | nil => rfl
  | cons kv rest ih =>
    obtain ⟨k₀, v₀⟩ := kv
    rw [dbGet] at h
    by_cases he : k = k₀
    · rw [if_pos he] at h
      exact absurd h (by simp)
    · rw [if_neg he] at h
      simp [dbRemove, he, ih h]

/-- The removed-value component of `remove` is `get` (both act on the first
occurrence of the key). -/
theorem dbRemove_snd (k : Str) (db : DB) : (dbRemove k db).2 = dbGet k db := by
  induction db with
  | nil => rfl
  | cons kv rest ih =>
    obtain ⟨k₀, v₀⟩ := kv
    by_cases he : k = k₀
    · simp [dbRemove, dbGet, he]
    · simp [dbRemove, dbGet, he, ih]

theorem splitAux_sep_free {l : Str} (h : '/' ∉ l) (rest : Str) (acc : Str) :
    splitAux (l ++ '/' :: rest) acc = (acc.reverse ++ l) :: splitAux rest [] := by
  induction l generalizing acc with
  | nil => simp [splitAux]
  | cons c cs ih =>
    have hc : c ≠ '/' := by
      intro he; exact h (he ▸ List.mem_cons_self _ _)
    have hcs : '/' ∉ cs := fun hm => h (List.mem_cons_of_mem _ hm)
    rw [List.cons_append, splitAux, if_neg hc, ih hcs]
    simp

theorem splitAux_of_sep_free {l : Str} (h : '/' ∉ l) (acc : Str) :
    splitAux l acc = [acc.reverse ++ l] := by
  induction l generalizing acc with
  | nil => simp [splitAux]
  | cons c cs ih =>
    have hc : c ≠ '/' := by
      intro he; exact h (he ▸ List.mem_cons_self _ _)
    have hcs : '/' ∉ cs := fun hm => h (List.mem_cons_of_mem _ hm)
    rw [splitAux, if_neg hc, ih hcs]
    simp

theorem keyStr_cons (s : Str) (s' : Str) (rest : List Str) :
    keyStr (s :: s' :: rest) = s ++ '/' :: keyStr (s' :: rest) := rfl

/-- Splitting the canonical string form of a key made of separator-free
segments recovers the segments. -/
theorem splitSep_keyStr {segs : List Str} (hne : segs ≠ [])
    (h : ∀ s ∈ segs, '/' ∉ s) : splitSep (keyStr segs) = segs := by
  induction segs with
  | nil => exact absurd rfl hne
  | cons s rest ih =>
    cases rest with
    | nil =>
      have hs : '/' ∉ s := h s (List.mem_cons_self _ _)
      simp [splitSep, keyStr, splitAux_of_sep_free hs]
    | cons s' rest' =>
      have hs : '/' ∉ s := h s (List.mem_cons_self _ _)
      rw [keyStr_cons, splitSep, splitAux_sep_free hs]
      simp only [List.reverse_nil, List.nil_append, List.cons.injEq, true_and]
      exact ih (by simp) (fun x hx => h x (List.mem_cons_of_mem _ hx))

theorem rawHeight_sep_free (h : Nat) : '/' ∉ rawHeight h := by
  intro hm
  have := List.eq_of_mem_replicate hm
  exact absurd this (by decide)

theorem decodeVal_encodeVal {α : Type} [Codec α] (a : α) :
    decodeVal (encodeVal a) = some a := Codec.dec_enc a

/-! ## Support lemmas for the subspace operations -/

theorem dbGet_absent_of_lt {k : Str} {db : DB}
    (h : ∀ kv ∈ db, lexLt k kv.1 = true) : dbGet k db = none := by
  induction db with
  | nil => rfl
  | cons kv rest ih =>
    obtain ⟨k₀, v₀⟩ := kv
    rw [dbGet_cons_ne (ne_of_lexLt (h _ (List.mem_cons_self _ _)))]
    exact ih (fun kv hkv => h kv (List.mem_cons_of_mem _ hkv))

theorem dbGet_remove_self {db : DB} (hs : DBSorted db) (k : Str) :
    dbGet k (dbRemove k db).1 = none := by
  induction db with
  | nil => rfl
  | cons kv rest ih =>
    obtain ⟨k₀, v₀⟩ := kv
    rw [DBSorted, List.pairwise_cons] at hs
    obtain ⟨hall, hrest⟩ := hs
    by_cases he : k = k₀
    · subst he
      simp only [dbRemove, if_pos rfl]
      exact dbGet_absent_of_lt hall
    · simp only [dbRemove, if_neg he]
      rw [dbGet_cons_ne he]
      exact ih hrest

theorem dbInsert_absorb (k : Str) (v1 v2 : Bytes) (db : DB) :
    (dbInsert k v2 (dbInsert k v1 db).1).1 = (dbInsert k v2 db).1 := by
  induction db with
  | nil =>
    rw [dbInsert_nil]
    simp only [dbInsert_cons_self, dbInsert_nil]
  | cons kv rest ih =>
    obtain ⟨k₀, v₀⟩ := kv
    by_cases hlt : lexLt k k₀ = true
    · rw [dbInsert_cons_lt hlt]
      simp only [dbInsert_cons_self, dbInsert_cons_lt hlt]
    · by_cases he : k = k₀
      · subst he
        simp only [dbInsert_cons_self]
      · rw [dbInsert_cons_gt (Bool.not_eq_true _ ▸ hlt) he]
        simp only [dbInsert_cons_gt (Bool.not_eq_true _ ▸ hlt) he, ih]

theorem write_subspace_val_insert (height : BlockHeight) (key : Key) (value : Bytes)
    (db : DB) :
    write_subspace_val height key value db =
      .ok ((value.length : Int) -
            (((dbInsert (subspaceKey key) value db).2).map
              (fun p => (p.length : Int))).getD 0,
           (dbInsert (subspaceKey key) value db).1) := by
  rcases h : dbInsert (subspaceKey key) value db with ⟨db', old⟩
  unfold write_subspace_val
  rw [h]
  cases old <;> simp

theorem delete_subspace_val_remove (height : BlockHeight) (key : Key) (db : DB) :
    delete_subspace_val height key db =
      .ok ((((dbRemove (subspaceKey key) db).2).map
              (fun p => (p.length : Int))).getD 0,
           (dbRemove (subspaceKey key) db).1) := by
  rcases h : dbRemove (subspaceKey key) db with ⟨db', old⟩
  unfold delete_subspace_val
  rw [h]
  cases old <;> simp

/-- C4: for every key and value, `write_subspace_val` returns `Ok(L)` with
`L` the byte length of the new value when the key was absent, and
`Ok(L2 - L1)` when a value of length `L1` is overwritten by one of length
`L2`; afterwards the key maps to the new value. -/
theorem write_subspace_val_delta (height : BlockHeight) (key : Key) (value : Bytes)
    (db : DB) (hs : DBSorted db) :
    (dbGet (subspaceKey key) db = none →
      write_subspace_val height key value db =
        .ok ((value.length : Int), (dbInsert (subspaceKey key) value db).1)) ∧
    (∀ prev, dbGet (subspaceKey key) db = some prev →
      write_subspace_val height key value db =
        .ok ((value.length : Int) - (prev.length : Int),
             (dbInsert (subspaceKey key) value db).1)) ∧
    read_subspace_val key (dbInsert (subspaceKey key) value db).1 = .ok (some value) := by
  have hsnd := dbInsert_snd hs (subspaceKey key) value
  refine ⟨?_, ?_, ?_⟩
  · intro h0
    rw [write_subspace_val_insert, hsnd, h0]
    simp
  · intro prev hp
    rw [write_subspace_val_insert, hsnd, hp]
    simp
  · simp [read_subspace_val, dbGet_insert_self]

/-- Witness for C4 at a concrete overwrite: a 1-byte value replaced by a
2-byte value yields delta `1`. -/
theorem write_subspace_val_delta_witness :
    write_subspace_val 0 [['a']] [7, 7] [(subspaceKey [['a']], [5])] =
      .ok ((1 : Int), (dbInsert (subspaceKey [['a']]) [7, 7]
        [(subspaceKey [['a']], [5])]).1) := by
  have h := (write_subspace_val_delta 0 [['a']] [7, 7]
    [(subspaceKey [['a']], [5])] (by decide)).2.1 [5] (by decide)
  simpa using h

/-- C5: `delete_subspace_val` returns `Ok(n)` with `n` the byte length of
the removed value when the key was present (and removes it), and returns
`Ok(0)` leaving the state unchanged when the key was absent. -/
theorem delete_subspace_val_semantics (height : BlockHeight) (key : Key) (db : DB)
    (hs : DBSorted db) :
    (dbGet (subspaceKey key) db = none →
      delete_subspace_val height key db = .ok (0, db)) ∧
    (∀ v, dbGet (subspaceKey key) db = some v →
      delete_subspace_val height key db =
        .ok ((v.length : Int), (dbRemove (subspaceKey key) db).1) ∧
      dbGet (subspaceKey key) (dbRemove (subspaceKey key) db).1 = none) := by
  constructor
  · intro h0
    rw [delete_subspace_val_remove, dbRemove_absent h0]
    simp [dbRemove_absent h0]
  · intro v hv
    have hsnd := dbRemove_snd (subspaceKey key) db
    rw [hv] at hsnd
    refine ⟨?_, dbGet_remove_self hs _⟩
    rw [delete_subspace_val_remove, hsnd]
    simp

/-- Witness for C5: deleting an absent key from a one-entry store returns
`Ok(0)` and leaves the store unchanged. -/
theorem delete_subspace_val_semantics_witness :
    delete_subspace_val 3 [['b']] [(subspaceKey [['a']], [5])] =
      .ok (0, [(subspaceKey [['a']], [5])]) :=
  (delete_subspace_val_semantics 3 [['b']] [(subspaceKey [['a']], [5])]
    (by decide)).1 (by decide)

/-- C10 (implicit): the height argument of the subspace mutations is
ignored — any two heights produce identical results — and overwriting a key
erases the previous value entirely: writing `v1` then `value` to the same
key ends in exactly the state of writing `value` alone, so no version
history is retained. -/
theorem subspace_height_ignored (h1 h2 : BlockHeight) (key : Key)
    (value v1 : Bytes) (db : DB) :
    write_subspace_val h1 key value db = write_subspace_val h2 key value db ∧
    delete_subspace_val h1 key db = delete_subspace_val h2 key db ∧
    ∃ d1 db1, write_subspace_val h1 key v1 db = .ok (d1, db1) ∧
      ∃ d2 db2, write_subspace_val h2 key value db1 = .ok (d2, db2) ∧
        ∃ d3, write_subspace_val h2 key value db = .ok (d3, db2) := by
  refine ⟨rfl, rfl, ?_⟩
  refine ⟨_, _, write_subspace_val_insert h1 key v1 db, ?_⟩
  refine ⟨_, _, write_subspace_val_insert h2 key value _, ?_⟩
  rw [dbInsert_absorb]
  exact ⟨_, write_subspace_val_insert h2 key value db⟩

/-- C8: staging a sequence of subspace mutations through the batch
operations and committing with `exec_batch` produces exactly the same
deltas and final state as applying the direct operations in the same
order, and `exec_batch` returns `Ok(())`. -/
theorem batch_direct_equivalence (db : DB) (ms : List Mutation) :
    applyBatched db ms = applyDirect db ms ∧ exec_batch mkBatch db = .ok db := by
  refine ⟨?_, rfl⟩
  have h : ∀ db', applyStaged mkBatch db' ms = applyDirect db' ms := by
    induction ms with
    | nil => intro db'; rfl
    | cons m rest ih =>
      intro db'
      have hop : (match m with
                  | .put h k v => batch_write_subspace_val mkBatch h k v db'
                  | .del h k => batch_delete_subspace_val mkBatch h k db') =
                 (match m with
                  | .put h k v => write_subspace_val h k v db'
                  | .del h k => delete_subspace_val h k db') := by
        cases m <;> rfl
      simp only [applyStaged, applyDirect, hop, ih]
  rw [applyBatched, h db]
  cases happ : applyDirect db ms with
  | error e => rfl
  | ok p =>
    obtain ⟨ds, dbf⟩ := p
    rfl

/-- C9: the generated `_validate_tx` entrypoint encodes the handler's
outcome as `1` exactly for `Ok(true)` and as `0` exactly for `Ok(false)` or
any error — an error is a validation failure, not a distinct host-visible
value. -/
theorem vp_result_encoding {Ctx Addr K V E : Type}
    (handler : Ctx → Bytes → Addr → K → V → Except E Bool)
    (ctx : Ctx) (tx_data : Bytes) (addr : Addr) (keys_changed : K)
    (verifiers : V) :
    (validateTxEntry handler ctx tx_data addr keys_changed verifiers = 1 ↔
      handler ctx tx_data addr keys_changed verifiers = .ok true) ∧
    (validateTxEntry handler ctx tx_data addr keys_changed verifiers = 0 ↔
      (handler ctx tx_data addr keys_changed verifiers = .ok false ∨
       ∃ e, handler ctx tx_data addr keys_changed verifiers = .error e)) := by
  rcases hh : handler ctx tx_data addr keys_changed verifiers with e | b
  · simp [validateTxEntry, hh]
  · cases b <;> simp [validateTxEntry, hh]

/-! ## Support lemmas for prefix iteration -/

theorem stripPre_of_isPre {p s : Str} (h : p.isPrefixOf s = true) :
    stripPre p s = some (s.drop p.length) := by
  induction p generalizing s with
  | nil => simp [stripPre]
  | cons c cs ih =>
    cases s with
    | nil => simp [List.isPrefixOf] at h
    | cons d ds =>
      simp only [List.isPrefixOf, Bool.and_eq_true, beq_iff_eq] at h
      obtain ⟨h1, h2⟩ := h
      subst h1
      simp [stripPre, ih h2]

theorem isPre_append {a b s : Str} (h : (a ++ b).isPrefixOf s = true) :
    a.isPrefixOf s = true :=
  List.isPrefixOf_iff_prefix.2 ((a.prefix_append b).trans (List.isPrefixOf_iff_prefix.1 h))

/-- The composed iterator stream over any base list: filter by the full
prefix, strip the namespace, charge `len(logical key) + len(value)`. -/
theorem prefixIter_mock {pfull dbPre : Str}
    (hpre : ∀ k : Str, pfull.isPrefixOf k = true → dbPre.isPrefixOf k = true)
    (l : List (Str × Bytes)) :
    prefixIterList dbPre (mockIterList pfull l) =
      (l.filter (fun kv => pfull.isPrefixOf kv.1)).map
        (fun kv => (kv.1.drop dbPre.length, kv.2,
          (kv.1.drop dbPre.length).length + kv.2.length)) := by
  induction l with
  | nil => rfl
  | cons kv rest ih =>
    obtain ⟨k, v⟩ := kv
    by_cases hk : pfull.isPrefixOf k = true
    · rw [mockIterList, if_pos hk, prefixIterList, stripPre_of_isPre (hpre k hk),
        List.filter_cons]
      simp [hk, ih]
    · rw [mockIterList, if_neg hk, List.filter_cons]
      simp [hk, ih]

/-- C3: `iter_prefix` yields exactly the entries whose physical key starts
with `subspace/` followed by the prefix — each as its logical key (the
physical key with `subspace/` stripped), its value, and a cost of
`len(logical key) + len(value)` — and the yielded sequence follows the
ascending lexicographic order of the physical keys. -/
theorem iter_prefix_complete (db : DB) (hs : DBSorted db) (pfx : Key) :
    iterPrefix pfx db =
      (db.filter (fun kv => ((subspacePre ++ keyStr pfx).isPrefixOf kv.1 : Bool))).map
        (fun kv => (kv.1.drop subspacePre.length, kv.2,
          (kv.1.drop subspacePre.length).length + kv.2.length)) ∧
    (db.filter (fun kv => ((subspacePre ++ keyStr pfx).isPrefixOf kv.1 : Bool))).Pairwise
      (fun a b => lexLt a.1 b.1 = true) := by
  refine ⟨?_, hs.filter _⟩
  unfold iterPrefix
  exact prefixIter_mock (fun k hk => isPre_append hk) db

/-- Witness for C3 on a three-entry store: the two `subspace/a…` entries are
yielded in ascending order with their costs, the metadata entry is not. -/
theorem iter_prefix_complete_witness :
    iterPrefix [['a']] [(heightStr, [1]),
        (subspaceKey [['a']], [9]), (subspaceKey [['a'], ['b']], [8, 8])] =
      [(['a'], [9], 2), (['a', '/', 'b'], [8, 8], 5)] := by
  have h := (iter_prefix_complete [(heightStr, [1]),
    (subspaceKey [['a']], [9]), (subspaceKey [['a'], ['b']], [8, 8])]
    (by decide) [['a']]).1
  rw [h]
  decide

/-! ## Support lemmas for the merkle-store read -/

theorem keyPush_sep_free {s : Str} (h : '/' ∉ s) (k : Key) :
    keyPush k s = .ok (k ++ [s]) := by
  rw [keyPush, if_neg h]

theorem read_merkle_tree_stores_loop (height : BlockHeight) (db : DB) :
    read_merkle_tree_stores height db =
      readStoresLoop [rawHeight height, "tree".data] db StoreType.list
        MerkleTreeStoresRead.empty := by
  unfold read_merkle_tree_stores
  rw [keyPush_sep_free (by decide)]
  rfl

/-- C6: `read_merkle_tree_stores` returns `Some` of a record with a root and
a store for every store type when all of them are present (with well-formed
values), and returns `Ok(None)` — not an error — as soon as any store type's
root or store is absent. -/
theorem merkle_stores_all_or_nothing (height : BlockHeight) (db : DB) :
    (∀ w : MerkleTreeStoresWrite,
      dbGet (rootKeyStr height .base) db = some (encodeVal w.baseRoot) →
      dbGet (storeKeyStr height .base) db = some (encodeVal w.baseStore) →
      dbGet (rootKeyStr height .account) db = some (encodeVal w.accountRoot) →
      dbGet (storeKeyStr height .account) db = some (encodeVal w.accountStore) →
      read_merkle_tree_stores height db = .ok (some w.toRead)) ∧
    ((∀ st : StoreType, ∀ b : Bytes,
        (dbGet (rootKeyStr height st) db = some b →
          (decodeVal b : Option Nat).isSome = true) ∧
        (dbGet (storeKeyStr height st) db = some b →
          (decodeVal b : Option Nat).isSome = true)) →
      (dbGet (rootKeyStr height .base) db = none ∨
       dbGet (storeKeyStr height .base) db = none ∨
       dbGet (rootKeyStr height .account) db = none ∨
       dbGet (storeKeyStr height .account) db = none) →
      read_merkle_tree_stores height db = .ok none) := by
  have hpush : ∀ k : Key, keyPush k "base".data = .ok (k ++ ["base".data]) :=
    keyPush_sep_free (by decide)
  have hpusha : ∀ k : Key, keyPush k "account".data = .ok (k ++ ["account".data]) :=
    keyPush_sep_free (by decide)
  have hpushr : ∀ k : Key, keyPush k "root".data = .ok (k ++ ["root".data]) :=
    keyPush_sep_free (by decide)
  have hpushs : ∀ k : Key, keyPush k "store".data = .ok (k ++ ["store".data]) :=
    keyPush_sep_free (by decide)
  constructor
  · intro w hbr hbs har has
    rw [read_merkle_tree_stores_loop]
    simp only [rootKeyStr, storeKeyStr, StoreType.toStr] at hbr hbs har has
    simp only [StoreType.list, readStoresLoop, StoreType.toStr, hpush, hpusha,
      hpushr, hpushs, List.cons_append, List.nil_append, hbr, hbs, har, has,
      decodeVal_encodeVal, StoreType.decodeStore, MerkleTreeStoresRead.set_root,
      MerkleTreeStoresRead.set_store, MerkleTreeStoresRead.empty,
      MerkleTreeStoresWrite.toRead]
  · intro hdec habs
    rw [read_merkle_tree_stores_loop]
    simp only [rootKeyStr, storeKeyStr, StoreType.toStr] at hdec habs
    rcases hbr : dbGet (keyStr [rawHeight height, "tree".data, "base".data,
        "root".data]) db with _ | b1
    · simp only [StoreType.list, readStoresLoop, StoreType.toStr, hpush, hpusha,
        hpushr, hpushs, List.cons_append, List.nil_append, hbr]
    · obtain ⟨r1, hd1⟩ := Option.isSome_iff_exists.1 ((hdec .base b1).1 hbr)
      rcases hbs : dbGet (keyStr [rawHeight height, "tree".data, "base".data,
          "store".data]) db with _ | b2
      · simp only [StoreType.list, readStoresLoop, StoreType.toStr, hpush, hpusha,
          hpushr, hpushs, List.cons_append, List.nil_append, hbr, hd1, hbs]
      · obtain ⟨s1, hd2⟩ := Option.isSome_iff_exists.1 ((hdec .base b2).2 hbs)
        rcases har : dbGet (keyStr [rawHeight height, "tree".data, "account".data,
            "root".data]) db with _ | b3
        · simp only [StoreType.list, readStoresLoop, StoreType.toStr, hpush, hpusha,
            hpushr, hpushs, List.cons_append, List.nil_append, hbr, hd1, hbs, hd2,
            StoreType.decodeStore, har]
        · obtain ⟨r2, hd3⟩ := Option.isSome_iff_exists.1 ((hdec .account b3).1 har)
          rcases has : dbGet (keyStr [rawHeight height, "tree".data,
              "account".data, "store".data]) db with _ | b4
          · simp only [StoreType.list, readStoresLoop, StoreType.toStr, hpush,
              hpusha, hpushr, hpushs, List.cons_append, List.nil_append, hbr, hd1,
              hbs, hd2, StoreType.decodeStore, har, hd3, has]
          · rcases habs with h | h | h | h <;> simp [h] at hbr hbs har has

/-- Witness for C6: a store holding all four entries reads back the full
record; the empty store (base root absent) reads back `None`. -/
theorem merkle_stores_all_or_nothing_witness :
    read_merkle_tree_stores 2
      [(rootKeyStr 2 .base, encodeVal (1 : Nat)),
       (storeKeyStr 2 .base, encodeVal (2 : Nat)),
       (rootKeyStr 2 .account, encodeVal (3 : Nat)),
       (storeKeyStr 2 .account, encodeVal (4 : Nat))] =
      .ok (some (MerkleTreeStoresWrite.mk 1 2 3 4).toRead) ∧
    read_merkle_tree_stores 2 [] = .ok none := by
  constructor
  · exact (merkle_stores_all_or_nothing 2 _).1 ⟨1, 2, 3, 4⟩
      (by decide) (by decide) (by decide) (by decide)
  · refine (merkle_stores_all_or_nothing 2 []).2 ?_ (Or.inl (by decide))
    intro st b
    constructor <;> intro hb <;> simp [dbGet] at hb

/-! ## Evaluation of the height-scoped scan -/

theorem storeType_sep_free (st : StoreType) : '/' ∉ st.toStr := by
  cases st <;> decide

theorem fromStr_toStr (st : StoreType) : StoreType.fromStr st.toStr = .ok st := by
  cases st <;> rfl

theorem splitSep_two (h : Nat) {s : Str} (hsep : '/' ∉ s) :
    splitSep (keyStr [rawHeight h, s]) = [rawHeight h, s] := by
  apply splitSep_keyStr (by simp)
  intro x hx
  rcases List.mem_cons.1 hx with rfl | hx
  · exact rawHeight_sep_free h
  · rcases List.mem_singleton.1 hx with rfl
    exact hsep

theorem splitSep_four (h : Nat) {s2 s3 s4 : Str} (h2 : '/' ∉ s2) (h3 : '/' ∉ s3)
    (h4 : '/' ∉ s4) :
    splitSep (keyStr [rawHeight h, s2, s3, s4]) = [rawHeight h, s2, s3, s4] := by
  apply splitSep_keyStr (by simp)
  intro x hx
  rcases List.mem_cons.1 hx with rfl | hx
  · exact rawHeight_sep_free h
  · rcases List.mem_cons.1 hx with rfl | hx
    · exact h2
    · rcases List.mem_cons.1 hx with rfl | hx
      · exact h3
      · rcases List.mem_singleton.1 hx with rfl
        exact h4

theorem loadEntry_hash {v : Bytes} {x : BlockHash}
    (hv : (decodeVal v : Option BlockHash) = some x) (acc : LoadAcc) (h : Nat) :
    loadEntry acc (hashKeyStr h) v = .ok { acc with hash := some x } := by
  unfold loadEntry
  simp only [hashKeyStr, splitSep_two h (by decide : '/' ∉ "hash".data)]
  rw [hv]
  rfl

theorem loadEntry_epoch {v : Bytes} {x : Epoch}
    (hv : (decodeVal v : Option Epoch) = some x) (acc : LoadAcc) (h : Nat) :
    loadEntry acc (epochKeyStr h) v = .ok { acc with epoch := some x } := by
  unfold loadEntry
  simp only [epochKeyStr, splitSep_two h (by decide : '/' ∉ "epoch".data)]
  rw [hv]
  rfl

theorem loadEntry_pred_epochs {v : Bytes} {x : List Epoch}
    (hv : (decodeVal v : Option (List Epoch)) = some x) (acc : LoadAcc) (h : Nat) :
    loadEntry acc (predEpochsKeyStr h) v = .ok { acc with pred_epochs := some x } := by
  unfold loadEntry
  simp only [predEpochsKeyStr, splitSep_two h (by decide : '/' ∉ "pred_epochs".data)]
  rw [hv]
  rfl

theorem loadEntry_address_gen {v : Bytes} {x : AddressGen}
    (hv : (decodeVal v : Option AddressGen) = some x) (acc : LoadAcc) (h : Nat) :
    loadEntry acc (addressGenKeyStr h) v = .ok { acc with address_gen := some x } := by
  unfold loadEntry
  simp only [addressGenKeyStr, splitSep_two h (by decide : '/' ∉ "address_gen".data)]
  rw [hv]
  rfl

theorem loadEntry_header (v : Bytes) (acc : LoadAcc) (h : Nat) :
    loadEntry acc (headerKeyStr h) v = .ok acc := by
  unfold loadEntry
  simp only [headerKeyStr, splitSep_two h (by decide : '/' ∉ "header".data)]
  rfl

theorem loadEntry_tree_root {v : Bytes} {x : Nat}
    (hv : (decodeVal v : Option Nat) = some x) (acc : LoadAcc) (h : Nat)
    (st : StoreType) :
    loadEntry acc (rootKeyStr h st) v =
      .ok { acc with merkle_tree_stores := acc.merkle_tree_stores.set_root st x } := by
  cases st with
  | base =>
    unfold loadEntry
    simp only [rootKeyStr, StoreType.toStr,
      splitSep_four h (by decide : '/' ∉ "tree".data)
        (by decide : '/' ∉ "base".data) (by decide : '/' ∉ "root".data)]
    rw [hv]
    rfl
  | account =>
    unfold loadEntry
    simp only [rootKeyStr, StoreType.toStr,
      splitSep_four h (by decide : '/' ∉ "tree".data)
        (by decide : '/' ∉ "account".data) (by decide : '/' ∉ "root".data)]
    rw [hv]
    rfl

theorem loadEntry_tree_store {v : Bytes} {x : Nat}
    (hv : (decodeVal v : Option Nat) = some x) (acc : LoadAcc) (h : Nat)
    (st : StoreType) :
    loadEntry acc (storeKeyStr h st) v =
      .ok { acc with
              merkle_tree_stores := acc.merkle_tree_stores.set_store (st, x) } := by
  cases st with
  | base =>
    unfold loadEntry
    simp only [storeKeyStr, StoreType.toStr,
      splitSep_four h (by decide : '/' ∉ "tree".data)
        (by decide : '/' ∉ "base".data) (by decide : '/' ∉ "store".data),
      StoreType.decodeStore]
    rw [hv]
    rfl
  | account =>
    unfold loadEntry
    simp only [storeKeyStr, StoreType.toStr,
      splitSep_four h (by decide : '/' ∉ "tree".data)
        (by decide : '/' ∉ "account".data) (by decide : '/' ∉ "store".data),
      StoreType.decodeStore]
    rw [hv]
    rfl

theorem loadEntry_offending {k : Str} (hoff : offendingPath k = true)
    (acc : LoadAcc) (v : Bytes) :
    loadEntry acc k v = .error (.unknownKey k) := by
  unfold loadEntry
  unfold offendingPath at hoff
  rcases h1 : (splitSep k).get? 1 with _ | s
  · simp only [h1]
  · simp only [h1] at hoff ⊢
    by_cases ht : s = "tree".data
    · subst ht
      rw [if_pos rfl] at hoff
      rw [if_pos rfl]
      rcases h2 : (splitSep k).get? 2 with _ | s2
      · simp only [h2]
      · simp only [h2] at hoff ⊢
        by_cases hb : s2 = "base".data ∨ s2 = "account".data
        · rw [if_pos hb] at hoff
          have hfs : ∃ st : StoreType, StoreType.fromStr s2 = .ok st := by
            rcases hb with rfl | rfl
            · exact ⟨.base, rfl⟩
            · exact ⟨.account, rfl⟩
          obtain ⟨st, hst⟩ := hfs
          rcases h3 : (splitSep k).get? 3 with _ | s3
          · simp only [hst, h3]
          · simp only [h3, decide_eq_true_eq] at hoff
            obtain ⟨hr, hsv⟩ := hoff
            simp only [hst, h3]
            rw [if_neg hr, if_neg hsv]
        · rw [if_neg hb] at hoff
          exact absurd hoff (by simp)
    · rw [if_neg ht] at hoff
      rw [if_neg ht]
      simp only [decide_eq_true_eq] at hoff
      push_neg at hoff
      obtain ⟨n1, n2, n3, n4, n5⟩ := hoff
      rw [if_neg n1, if_neg n2, if_neg n3, if_neg n4, if_neg n5]

theorem loadEntry_good {h : Nat} {k : Str} {v : Bytes} (hg : GoodEntry h k v)
    (acc : LoadAcc) :
    ∃ acc', loadEntry acc k v = .ok acc' ∧
      (k ≠ hashKeyStr h → acc'.hash = acc.hash) ∧
      (k ≠ epochKeyStr h → acc'.epoch = acc.epoch) ∧
      (k ≠ predEpochsKeyStr h → acc'.pred_epochs = acc.pred_epochs) ∧
      (k ≠ addressGenKeyStr h → acc'.address_gen = acc.address_gen) ∧
      (k ≠ rootKeyStr h .base →
        acc'.merkle_tree_stores.baseRoot = acc.merkle_tree_stores.baseRoot) ∧
      (k ≠ storeKeyStr h .base →
        acc'.merkle_tree_stores.baseStore = acc.merkle_tree_stores.baseStore) ∧
      (k ≠ rootKeyStr h .account →
        acc'.merkle_tree_stores.accountRoot = acc.merkle_tree_stores.accountRoot) ∧
      (k ≠ storeKeyStr h .account →
        acc'.merkle_tree_stores.accountStore = acc.merkle_tree_stores.accountStore) := by
  rcases hg with ⟨rfl, hv⟩ | ⟨rfl, hv⟩ | ⟨rfl, hv⟩ | ⟨rfl, hv⟩ | rfl |
    ⟨rfl, hv⟩ | ⟨rfl, hv⟩ | ⟨rfl, hv⟩ | ⟨rfl, hv⟩
  · obtain ⟨x, hx⟩ := Option.isSome_iff_exists.1 hv
    exact ⟨_, loadEntry_hash hx acc h, fun hne => absurd rfl hne, fun _ => rfl,
      fun _ => rfl, fun _ => rfl, fun _ => rfl, fun _ => rfl, fun _ => rfl,
      fun _ => rfl⟩
  · obtain ⟨x, hx⟩ := Option.isSome_iff_exists.1 hv
    exact ⟨_, loadEntry_epoch hx acc h, fun _ => rfl, fun hne => absurd rfl hne,
      fun _ => rfl, fun _ => rfl, fun _ => rfl, fun _ => rfl, fun _ => rfl,
      fun _ => rfl⟩
  · obtain ⟨x, hx⟩ := Option.isSome_iff_exists.1 hv
    exact ⟨_, loadEntry_pred_epochs hx acc h, fun _ => rfl, fun _ => rfl,
      fun hne => absurd rfl hne, fun _ => rfl, fun _ => rfl, fun _ => rfl,
      fun _ => rfl, fun _ => rfl⟩
  · obtain ⟨x, hx⟩ := Option.isSome_iff_exists.1 hv
    exact ⟨_, loadEntry_address_gen hx acc h, fun _ => rfl, fun _ => rfl,
      fun _ => rfl, fun hne => absurd rfl hne, fun _ => rfl, fun _ => rfl,
      fun _ => rfl, fun _ => rfl⟩
  · exact ⟨acc, loadEntry_header v acc h, fun _ => rfl, fun _ => rfl,
      fun _ => rfl, fun _ => rfl, fun _ => rfl, fun _ => rfl, fun _ => rfl,
      fun _ => rfl⟩
  · obtain ⟨x, hx⟩ := Option.isSome_iff_exists.1 hv
    exact ⟨_, loadEntry_tree_root hx acc h .base, fun _ => rfl, fun _ => rfl,
      fun _ => rfl, fun _ => rfl, fun hne => absurd rfl hne, fun _ => rfl,
      fun _ => rfl, fun _ => rfl⟩
  · obtain ⟨x, hx⟩ := Option.isSome_iff_exists.1 hv
    exact ⟨_, loadEntry_tree_store hx acc h .base, fun _ => rfl, fun _ => rfl,
      fun _ => rfl, fun _ => rfl, fun _ => rfl, fun hne => absurd rfl hne,
      fun _ => rfl, fun _ => rfl⟩
  · obtain ⟨x, hx⟩ := Option.isSome_iff_exists.1 hv
    exact ⟨_, loadEntry_tree_root hx acc h .account, fun _ => rfl, fun _ => rfl,
      fun _ => rfl, fun _ => rfl, fun _ => rfl, fun _ => rfl,
      fun hne => absurd rfl hne, fun _ => rfl⟩
  · obtain ⟨x, hx⟩ := Option.isSome_iff_exists.1 hv
    exact ⟨_, loadEntry_tree_store hx acc h .account, fun _ => rfl, fun _ => rfl,
      fun _ => rfl, fun _ => rfl, fun _ => rfl, fun _ => rfl, fun _ => rfl,
      fun hne => absurd rfl hne⟩

theorem loadLoop_good {h : Nat} {l : List (Str × Bytes)}
    (hg : ∀ kv ∈ l, GoodEntry h kv.1 kv.2) (acc : LoadAcc) :
    ∃ acc', loadLoop acc l = .ok acc' ∧
      ((∀ kv ∈ l, kv.1 ≠ hashKeyStr h) → acc'.hash = acc.hash) ∧
      ((∀ kv ∈ l, kv.1 ≠ epochKeyStr h) → acc'.epoch = acc.epoch) ∧
      ((∀ kv ∈ l, kv.1 ≠ predEpochsKeyStr h) → acc'.pred_epochs = acc.pred_epochs) ∧
      ((∀ kv ∈ l, kv.1 ≠ addressGenKeyStr h) → acc'.address_gen = acc.address_gen) ∧
      ((∀ kv ∈ l, kv.1 ≠ rootKeyStr h .base) →
        acc'.merkle_tree_stores.baseRoot = acc.merkle_tree_stores.baseRoot) ∧
      ((∀ kv ∈ l, kv.1 ≠ storeKeyStr h .base) →
        acc'.merkle_tree_stores.baseStore = acc.merkle_tree_stores.baseStore) ∧
      ((∀ kv ∈ l, kv.1 ≠ rootKeyStr h .account) →
        acc'.merkle_tree_stores.accountRoot = acc.merkle_tree_stores.accountRoot) ∧
      ((∀ kv ∈ l, kv.1 ≠ storeKeyStr h .account) →
        acc'.merkle_tree_stores.accountStore = acc.merkle_tree_stores.accountStore) := by
  induction l generalizing acc with
  | nil =>
    exact ⟨acc, rfl, fun _ => rfl, fun _ => rfl, fun _ => rfl, fun _ => rfl,
      fun _ => rfl, fun _ => rfl, fun _ => rfl, fun _ => rfl⟩
  | cons kv rest ih =>
    obtain ⟨k0, v0⟩ := kv
    obtain ⟨acc1, he, f1, f2, f3, f4, f5, f6, f7, f8⟩ :=
      loadEntry_good (hg _ (List.mem_cons_self _ _)) acc
    obtain ⟨acc', hl, g1, g2, g3, g4, g5, g6, g7, g8⟩ :=
      ih (fun kv hkv => hg kv (List.mem_cons_of_mem _ hkv)) acc1
    refine ⟨acc', by simp only [loadLoop, he, hl], ?_, ?_, ?_, ?_, ?_, ?_, ?_, ?_⟩
    · intro hall
      rw [g1 (fun kv hkv => hall kv (List.mem_cons_of_mem _ hkv))]
      exact f1 (hall _ (List.mem_cons_self _ _))
    · intro hall
      rw [g2 (fun kv hkv => hall kv (List.mem_cons_of_mem _ hkv))]
      exact f2 (hall _ (List.mem_cons_self _ _))
    · intro hall
      rw [g3 (fun kv hkv => hall kv (List.mem_cons_of_mem _ hkv))]
      exact f3 (hall _ (List.mem_cons_self _ _))
    · intro hall
      rw [g4 (fun kv hkv => hall kv (List.mem_cons_of_mem _ hkv))]
      exact f4 (hall _ (List.mem_cons_self _ _))
    · intro hall
      rw [g5 (fun kv hkv => hall kv (List.mem_cons_of_mem _ hkv))]
      exact f5 (hall _ (List.mem_cons_self _ _))
    · intro hall
      rw [g6 (fun kv hkv => hall kv (List.mem_cons_of_mem _ hkv))]
      exact f6 (hall _ (List.mem_cons_self _ _))
    · intro hall
      rw [g7 (fun kv hkv => hall kv (List.mem_cons_of_mem _ hkv))]
      exact f7 (hall _ (List.mem_cons_self _ _))
    · intro hall
      rw [g8 (fun kv hkv => hall kv (List.mem_cons_of_mem _ hkv))]
      exact f8 (hall _ (List.mem_cons_self _ _))

theorem loadLoop_offending {K : Str} (hoff : offendingPath K = true) {h : Nat}
    {l : List (Str × Bytes)} (hmem : ∃ v, (K, v) ∈ l)
    (hgood : ∀ kv ∈ l, kv.1 ≠ K → GoodEntry h kv.1 kv.2) (acc : LoadAcc) :
    loadLoop acc l = .error (.unknownKey K) := by
  induction l generalizing acc with
  | nil =>
    obtain ⟨v, hv⟩ := hmem
    exact absurd hv (List.not_mem_nil _)
  | cons kv rest ih =>
    obtain ⟨k0, v0⟩ := kv
    by_cases hk : k0 = K
    · subst hk
      simp only [loadLoop, loadEntry_offending hoff acc v0]
    · obtain ⟨acc1, he, _, _, _, _, _, _, _, _⟩ :=
        loadEntry_good (hgood _ (List.mem_cons_self _ _) hk) acc
      simp only [loadLoop, he]
      have hmem' : ∃ v, (K, v) ∈ rest := by
        obtain ⟨v, hv⟩ := hmem
        rcases List.mem_cons.1 hv with heq | hv'
        · injection heq with hk1 hk2
          exact absurd hk1.symm hk
        · exact ⟨v, hv'⟩
      exact ih hmem' (fun kv hkv hne => hgood kv (List.mem_cons_of_mem _ hkv) hne) acc1

theorem read_last_block_loop {db : DB} {h res neh net : Nat}
    (hheight : dbGet heightStr db = some (encodeVal h))
    (hres : dbGet (resultsPre ++ rawHeight h) db = some (encodeVal res))
    (hnh : dbGet nextHeightStr db = some (encodeVal neh))
    (hnt : dbGet nextTimeStr db = some (encodeVal net)) :
    read_last_block db =
      match loadLoop LoadAcc.init (dbRange (rangeLo h) (rangeHi h) db) with
      | .error e => .error e
      | .ok acc =>
        match acc.hash, acc.epoch, acc.pred_epochs, acc.address_gen with
        | some hash, some epoch, some pred_epochs, some address_gen =>
          .ok (some
            { merkle_tree_stores := acc.merkle_tree_stores
              hash, height := h, epoch, pred_epochs
              next_epoch_min_start_height := neh
              next_epoch_min_start_time := net
              address_gen, results := res })
        | _, _, _, _ => .error .temporary := by
  unfold read_last_block
  rw [hheight]
  simp only [decodeVal_encodeVal]
  rw [hres]
  simp only [decodeVal_encodeVal]
  rw [hnh]
  simp only [decodeVal_encodeVal]
  rw [hnt]
  simp only [decodeVal_encodeVal]
  rfl

/-- C2 counterexample: a backend state whose latest-height marker is present
but whose block results are missing makes `read_last_block` return
`Ok(None)`, not a `Temporary` error as the claim states. -/
theorem partial_state_results_missing :
    read_last_block [(heightStr, encodeVal (1 : Nat))] = .ok none ∧
    (.ok none : Except DBError (Option BlockStateRead)) ≠ .error .temporary := by
  constructor
  · rfl
  · intro h
    exact absurd h (by simp)

/-- C2 (amended): with the height marker, block results and both next-epoch
thresholds present and every height-scoped entry well formed, the absence of
any one of the four per-height scalars (`hash`, `epoch`, `pred_epochs`,
`address_gen`) makes `read_last_block` fail with the `Temporary` error kind;
a missing block-results entry or next-epoch threshold instead yields
`Ok(None)`, and a missing merkle root or store alone causes no error. -/
theorem partial_scalar_temporary {db : DB} {h res neh net : Nat}
    (hheight : dbGet heightStr db = some (encodeVal h))
    (hres : dbGet (resultsPre ++ rawHeight h) db = some (encodeVal res))
    (hnh : dbGet nextHeightStr db = some (encodeVal neh))
    (hnt : dbGet nextTimeStr db = some (encodeVal net))
    (hgood : ∀ kv ∈ dbRange (rangeLo h) (rangeHi h) db, GoodEntry h kv.1 kv.2)
    (hmiss :
      (∀ kv ∈ dbRange (rangeLo h) (rangeHi h) db, kv.1 ≠ hashKeyStr h) ∨
      (∀ kv ∈ dbRange (rangeLo h) (rangeHi h) db, kv.1 ≠ epochKeyStr h) ∨
      (∀ kv ∈ dbRange (rangeLo h) (rangeHi h) db, kv.1 ≠ predEpochsKeyStr h) ∨
      (∀ kv ∈ dbRange (rangeLo h) (rangeHi h) db, kv.1 ≠ addressGenKeyStr h)) :
    read_last_block db = .error .temporary := by
  rw [read_last_block_loop hheight hres hnh hnt]
  obtain ⟨acc', hl, g1, g2, g3, g4, g5, g6, g7, g8⟩ := loadLoop_good hgood LoadAcc.init
  rw [hl]
  have hn : acc'.hash = none ∨ acc'.epoch = none ∨ acc'.pred_epochs = none ∨
      acc'.address_gen = none := by
    rcases hmiss with hm | hm | hm | hm
    · exact Or.inl (g1 hm)
    · exact Or.inr (Or.inl (g2 hm))
    · exact Or.inr (Or.inr (Or.inl (g3 hm)))
    · exact Or.inr (Or.inr (Or.inr (g4 hm)))
  clear hl g1 g2 g3 g4 g5 g6 g7 g8 hgood hmiss hheight hres hnh hnt
  rcases h1 : acc'.hash with _ | x1 <;> rcases h2 : acc'.epoch with _ | x2 <;>
    rcases h3 : acc'.pred_epochs with _ | x3 <;>
    rcases h4 : acc'.address_gen with _ | x4 <;> simp_all

/-- Witness for the amended C2: a state with everything present except the
`hash` scalar reads back as a `Temporary` error. -/
theorem partial_scalar_temporary_witness :
    read_last_block [(heightStr, encodeVal (1 : Nat)),
      (resultsPre ++ rawHeight 1, encodeVal (0 : Nat)),
      (nextHeightStr, encodeVal (2 : Nat)), (nextTimeStr, encodeVal (3 : Nat)),
      (epochKeyStr 1, encodeVal (0 : Nat)),
      (predEpochsKeyStr 1, encodeVal ([] : List Nat)),
      (addressGenKeyStr 1, encodeVal (0 : Nat))] = .error .temporary := by
  refine @partial_scalar_temporary _ 1 0 2 3 ?_ ?_ ?_ ?_ ?_ (Or.inl ?_) <;> decide

/-- C7: a backend state whose height-scoped namespace contains a key with an
unrecognized second segment (or a `tree` sub-key not ending in `root` or
`store`), all other height-scoped entries being well formed, makes
`read_last_block` fail with `UnknownKey` naming that key. -/
theorem unknown_key_rejection {db : DB} {h res neh net : Nat} {K : Str}
    (hheight : dbGet heightStr db = some (encodeVal h))
    (hres : dbGet (resultsPre ++ rawHeight h) db = some (encodeVal res))
    (hnh : dbGet nextHeightStr db = some (encodeVal neh))
    (hnt : dbGet nextTimeStr db = some (encodeVal net))
    (hoff : offendingPath K = true)
    (hmem : ∃ v, (K, v) ∈ dbRange (rangeLo h) (rangeHi h) db)
    (hgood : ∀ kv ∈ dbRange (rangeLo h) (rangeHi h) db,
      kv.1 ≠ K → GoodEntry h kv.1 kv.2) :
    read_last_block db = .error (.unknownKey K) := by
  rw [read_last_block_loop hheight hres hnh hnt,
    loadLoop_offending hoff hmem hgood LoadAcc.init]

/-- Witness for C7: a `1/bogus` entry under the height namespace is rejected
with `UnknownKey "1/bogus"`. -/
theorem unknown_key_rejection_witness :
    read_last_block [(heightStr, encodeVal (1 : Nat)),
      (resultsPre ++ rawHeight 1, encodeVal (0 : Nat)),
      (nextHeightStr, encodeVal (2 : Nat)), (nextTimeStr, encodeVal (3 : Nat)),
      (keyStr [rawHeight 1, "bogus".data], [9])] =
      .error (.unknownKey (keyStr [rawHeight 1, "bogus".data])) := by
  refine @unknown_key_rejection _ 1 0 2 3 _ ?_ ?_ ?_ ?_ ?_ ⟨[9], ?_⟩ ?_ <;> decide

/-! ## Membership and key-distinctness helpers for the write/read round trip -/

theorem cons_ne_head {a b : Char} {x y : Str} (h : a ≠ b) : a :: x ≠ b :: y := by
  intro he
  injection he with h1 _
  exact h h1

theorem heightScoped_ne_head {h : Nat} {s t : Str} {c : Char}
    (hc1 : c ≠ '/') (hc2 : c ≠ '1') : rawHeight h ++ '/' :: s ≠ c :: t := by
  cases h with
  | zero =>
    rw [rawHeight, List.replicate_zero, List.nil_append]
    exact cons_ne_head (fun he => hc1 he.symm)
  | succ n =>
    rw [rawHeight, List.replicate_succ, List.cons_append]
    exact cons_ne_head (fun he => hc2 he.symm)

theorem heightScoped_ne {h : Nat} {x y : Str} (hxy : x ≠ y) :
    rawHeight h ++ x ≠ rawHeight h ++ y :=
  fun he => hxy (List.append_cancel_left he)

theorem hashKeyStr_def (h : Nat) :
    hashKeyStr h = rawHeight h ++ '/' :: "hash".data := rfl

theorem epochKeyStr_def (h : Nat) :
    epochKeyStr h = rawHeight h ++ '/' :: "epoch".data := rfl

theorem predEpochsKeyStr_def (h : Nat) :
    predEpochsKeyStr h = rawHeight h ++ '/' :: "pred_epochs".data := rfl

theorem addressGenKeyStr_def (h : Nat) :
    addressGenKeyStr h = rawHeight h ++ '/' :: "address_gen".data := rfl

theorem headerKeyStr_def (h : Nat) :
    headerKeyStr h = rawHeight h ++ '/' :: "header".data := rfl

theorem rootKeyStr_def (h : Nat) (st : StoreType) :
    rootKeyStr h st =
      rawHeight h ++ '/' :: ("tree".data ++ '/' :: (st.toStr ++ '/' :: "root".data)) := rfl

theorem storeKeyStr_def (h : Nat) (st : StoreType) :
    storeKeyStr h st =
      rawHeight h ++ '/' :: ("tree".data ++ '/' :: (st.toStr ++ '/' :: "store".data)) := rfl

/-- Inserting below every key of the map prepends. -/
theorem dbInsert_of_lt_all {k : Str} {l : DB} (h : ∀ kv ∈ l, lexLt k kv.1 = true)
    (v : Bytes) : dbInsert k v l = ((k, v) :: l, none) := by
  cases l with
  | nil => rfl
  | cons kv rest =>
    obtain ⟨k₀, v₀⟩ := kv
    exact dbInsert_cons_lt (h _ (List.mem_cons_self _ _)) v v₀ rest

theorem self_mem_insert (k : Str) (v : Bytes) (l : DB) : (k, v) ∈ (dbInsert k v l).1 := by
  induction l with
  | nil => rw [dbInsert_nil]; exact List.mem_cons_self _ _
  | cons kv rest ih =>
    obtain ⟨k₀, v₀⟩ := kv
    by_cases hlt : lexLt k k₀ = true
    · rw [dbInsert_cons_lt hlt]
      exact List.mem_cons_self _ _
    · by_cases he : k = k₀
      · subst he
        rw [dbInsert_cons_self]
        exact List.mem_cons_self _ _
      · rw [dbInsert_cons_gt (Bool.not_eq_true _ ▸ hlt) he]
        exact List.mem_cons_of_mem _ ih

theorem mem_insert_of_ne {kv : Str × Bytes} {k : Str} {l : DB}
    (hm : kv ∈ l) (hne : kv.1 ≠ k) (v : Bytes) : kv ∈ (dbInsert k v l).1 := by
  induction l with
  | nil => cases hm
  | cons kv₀ rest ih =>
    obtain ⟨k₀, v₀⟩ := kv₀
    by_cases hlt : lexLt k k₀ = true
    · rw [dbInsert_cons_lt hlt]
      exact List.mem_cons_of_mem _ hm
    · by_cases he : k = k₀
      · subst he
        rw [dbInsert_cons_self]
        rcases List.mem_cons.1 hm with rfl | hm'
        · exact absurd rfl hne
        · exact List.mem_cons_of_mem _ hm'
      · rw [dbInsert_cons_gt (Bool.not_eq_true _ ▸ hlt) he]
        rcases List.mem_cons.1 hm with rfl | hm'
        · exact List.mem_cons_self _ _
        · exact List.mem_cons_of_mem _ (ih hm')

theorem dbGet_mem {k : Str} {v : Bytes} {db : DB} (h : dbGet k db = some v) :
    (k, v) ∈ db := by
  induction db with
  | nil => cases h
  | cons kv rest ih =>
    obtain ⟨k₀, v₀⟩ := kv
    by_cases he : k = k₀
    · subst he
      rw [dbGet_cons_self] at h
      injection h with h'
      subst h'
      exact List.mem_cons_self _ _
    · rw [dbGet_cons_ne he] at h
      exact List.mem_cons_of_mem _ (ih h)

/-- Range-bound facts: every height-scoped key lies inside the scan range. -/
theorem inRange_heightScoped (h : Nat) (suffix : Str) :
    (!lexLt (rawHeight h ++ '/' :: suffix) (rangeLo h) &&
      lexLt (rawHeight h ++ '/' :: suffix) (rangeHi h)) = true := by
  have h1 : lexLt (rawHeight h ++ '/' :: suffix) (rangeLo h) = false := by
    rw [rangeLo, List.append_cons (rawHeight h) '/' suffix]
    exact lexLt_append_self _ _
  have h2 : lexLt (rawHeight h ++ '/' :: suffix) (rangeHi h) = true := by
    have hr : rawHeight (h + 1) = rawHeight h ++ ['1'] := List.replicate_succ' h '1'
    rw [rangeHi, hr, List.append_assoc, lexLt_append_left, List.cons_append,
      List.nil_append]
    simp only [lexLt]
    rw [if_pos (by decide)]
  rw [h1, h2]
  rfl

/-- A key starting with a character above `'1'` is outside the scan range. -/
theorem notInRange_head (h : Nat) {c : Char} {t : Str} (hc1 : ¬c < '1') (hc2 : c ≠ '1') :
    (!lexLt (c :: t) (rangeLo h) && lexLt (c :: t) (rangeHi h)) = false := by
  have h2 : lexLt (c :: t) (rangeHi h) = false := by
    have hr : rawHeight (h + 1) = '1' :: rawHeight h := List.replicate_succ '1' h
    rw [rangeHi, hr, List.cons_append]
    simp only [lexLt]
    rw [if_neg hc1, if_neg hc2]
  rw [h2, Bool.and_false]

/-- Over a scan list of well-formed entries with pairwise-distinct keys, the
loop succeeds and each recognized entry's decoded value lands in its field of
the final accumulator. -/
theorem loadLoop_exact {h : Nat} {l : List (Str × Bytes)}
    (hg : ∀ kv ∈ l, GoodEntry h kv.1 kv.2)
    (huniq : l.Pairwise (fun a b => a.1 ≠ b.1)) (acc : LoadAcc) :
    ∃ acc', loadLoop acc l = .ok acc' ∧
      (∀ x : Nat, (hashKeyStr h, encodeVal x) ∈ l → acc'.hash = some x) ∧
      (∀ x : Nat, (epochKeyStr h, encodeVal x) ∈ l → acc'.epoch = some x) ∧
      (∀ x : List Nat, (predEpochsKeyStr h, encodeVal x) ∈ l →
        acc'.pred_epochs = some x) ∧
      (∀ x : Nat, (addressGenKeyStr h, encodeVal x) ∈ l →
        acc'.address_gen = some x) ∧
      (∀ x : Nat, (rootKeyStr h .base, encodeVal x) ∈ l →
        acc'.merkle_tree_stores.baseRoot = some x) ∧
      (∀ x : Nat, (storeKeyStr h .base, encodeVal x) ∈ l →
        acc'.merkle_tree_stores.baseStore = some x) ∧
      (∀ x : Nat, (rootKeyStr h .account, encodeVal x) ∈ l →
        acc'.merkle_tree_stores.accountRoot = some x) ∧
      (∀ x : Nat, (storeKeyStr h .account, encodeVal x) ∈ l →
        acc'.merkle_tree_stores.accountStore = some x) := by
  induction l generalizing acc with
  | nil =>
    refine ⟨acc, rfl, ?_, ?_, ?_, ?_, ?_, ?_, ?_, ?_⟩ <;> exact fun x hx => absurd hx (List.not_mem_nil _)
  | cons kv rest ih =>
    obtain ⟨k0, v0⟩ := kv
    rw [List.pairwise_cons] at huniq
    obtain ⟨hked, huniq'⟩ := huniq
    have hg' : ∀ kv ∈ rest, GoodEntry h kv.1 kv.2 :=
      fun kv hkv => hg kv (List.mem_cons_of_mem _ hkv)
    obtain ⟨acc1, he, f1, f2, f3, f4, f5, f6, f7, f8⟩ :=
      loadEntry_good (hg _ (List.mem_cons_self _ _)) acc
    obtain ⟨acc', hl, m1, m2, m3, m4, m5, m6, m7, m8⟩ := ih hg' huniq' acc1
    obtain ⟨acc'', hl2, g1, g2, g3, g4, g5, g6, g7, g8⟩ := loadLoop_good hg' acc1
    rw [hl] at hl2
    injection hl2 with he''
    subst he''
    refine ⟨acc', by simp only [loadLoop, he, hl], ?_, ?_, ?_, ?_, ?_, ?_, ?_, ?_⟩
    · intro x hx
      rcases List.mem_cons.1 hx with heq | hx'
      · injection heq with e1 e2
        subst e1
        subst e2
        have he2 := loadEntry_hash (decodeVal_encodeVal x) acc h
        rw [he] at he2
        injection he2 with he3
        have hnorest : ∀ kv ∈ rest, kv.1 ≠ hashKeyStr h :=
          fun kv hkv => (hked kv hkv).symm
        rw [g1 hnorest, he3]
      · exact m1 x hx'
    · intro x hx
      rcases List.mem_cons.1 hx with heq | hx'
      · injection heq with e1 e2
        subst e1
        subst e2
        have he2 := loadEntry_epoch (decodeVal_encodeVal x) acc h
        rw [he] at he2
        injection he2 with he3
        have hnorest : ∀ kv ∈ rest, kv.1 ≠ epochKeyStr h :=
          fun kv hkv => (hked kv hkv).symm
        rw [g2 hnorest, he3]
      · exact m2 x hx'
    · intro x hx
      rcases List.mem_cons.1 hx with heq | hx'
      · injection heq with e1 e2
        subst e1
        subst e2
        have he2 := loadEntry_pred_epochs (decodeVal_encodeVal x) acc h
        rw [he] at he2
        injection he2 with he3
        have hnorest : ∀ kv ∈ rest, kv.1 ≠ predEpochsKeyStr h :=
          fun kv hkv => (hked kv hkv).symm
        rw [g3 hnorest, he3]
      · exact m3 x hx'
    · intro x hx
      rcases List.mem_cons.1 hx with heq | hx'
      · injection heq with e1 e2
        subst e1
        subst e2
        have he2 := loadEntry_address_gen (decodeVal_encodeVal x) acc h
        rw [he] at he2
        injection he2 with he3
        have hnorest : ∀ kv ∈ rest, kv.1 ≠ addressGenKeyStr h :=
          fun kv hkv => (hked kv hkv).symm
        rw [g4 hnorest, he3]
      · exact m4 x hx'
    · intro x hx
      rcases List.mem_cons.1 hx with heq | hx'
      · injection heq with e1 e2
        subst e1
        subst e2
        have he2 := loadEntry_tree_root (decodeVal_encodeVal x) acc h .base
        rw [he] at he2
        injection he2 with he3
        have hnorest : ∀ kv ∈ rest, kv.1 ≠ rootKeyStr h .base :=
          fun kv hkv => (hked kv hkv).symm
        rw [g5 hnorest, he3]
        rfl
      · exact m5 x hx'
    · intro x hx
      rcases List.mem_cons.1 hx with heq | hx'
      · injection heq with e1 e2
        subst e1
        subst e2
        have he2 := loadEntry_tree_store (decodeVal_encodeVal x) acc h .base
        rw [he] at he2
        injection he2 with he3
        have hnorest : ∀ kv ∈ rest, kv.1 ≠ storeKeyStr h .base :=
          fun kv hkv => (hked kv hkv).symm
        rw [g6 hnorest, he3]
        rfl
      · exact m6 x hx'
    · intro x hx
      rcases List.mem_cons.1 hx with heq | hx'
      · injection heq with e1 e2
        subst e1
        subst e2
        have he2 := loadEntry_tree_root (decodeVal_encodeVal x) acc h .account
        rw [he] at he2
        injection he2 with he3
        have hnorest : ∀ kv ∈ rest, kv.1 ≠ rootKeyStr h .account :=
          fun kv hkv => (hked kv hkv).symm
        rw [g7 hnorest, he3]
        rfl
      · exact m7 x hx'
    · intro x hx
      rcases List.mem_cons.1 hx with heq | hx'
      · injection heq with e1 e2
        subst e1
        subst e2
        have he2 := loadEntry_tree_store (decodeVal_encodeVal x) acc h .account
        rw [he] at he2
        injection he2 with he3
        have hnorest : ∀ kv ∈ rest, kv.1 ≠ storeKeyStr h .account :=
          fun kv hkv => (hked kv hkv).symm
        rw [g8 hnorest, he3]
        rfl
      · exact m8 x hx'

theorem MerkleTreeStoresRead.ext1 {a b : MerkleTreeStoresRead}
    (h1 : a.baseRoot = b.baseRoot) (h2 : a.baseStore = b.baseStore)
    (h3 : a.accountRoot = b.accountRoot) (h4 : a.accountStore = b.accountStore) :
    a = b := by
  cases a
  cases b
  simp_all

theorem goodEntry_hash (h x : Nat) : GoodEntry h (hashKeyStr h) (encodeVal x) :=
  Or.inl ⟨rfl, by rw [decodeVal_encodeVal]; rfl⟩

theorem goodEntry_epoch (h x : Nat) : GoodEntry h (epochKeyStr h) (encodeVal x) :=
  Or.inr (Or.inl ⟨rfl, by rw [decodeVal_encodeVal]; rfl⟩)

theorem goodEntry_pred (h : Nat) (x : List Nat) :
    GoodEntry h (predEpochsKeyStr h) (encodeVal x) :=
  Or.inr (Or.inr (Or.inl ⟨rfl, by rw [decodeVal_encodeVal]; rfl⟩))

theorem goodEntry_addr (h x : Nat) :
    GoodEntry h (addressGenKeyStr h) (encodeVal x) :=
  Or.inr (Or.inr (Or.inr (Or.inl ⟨rfl, by rw [decodeVal_encodeVal]; rfl⟩)))

theorem goodEntry_header (h : Nat) (v : Bytes) : GoodEntry h (headerKeyStr h) v :=
  Or.inr (Or.inr (Or.inr (Or.inr (Or.inl rfl))))

theorem goodEntry_root (h x : Nat) (st : StoreType) :
    GoodEntry h (rootKeyStr h st) (encodeVal x) := by
  cases st with
  | base =>
    exact Or.inr (Or.inr (Or.inr (Or.inr (Or.inr (Or.inl
      ⟨rfl, by rw [decodeVal_encodeVal]; rfl⟩)))))
  | account =>
    exact Or.inr (Or.inr (Or.inr (Or.inr (Or.inr (Or.inr (Or.inr (Or.inl
      ⟨rfl, by rw [decodeVal_encodeVal]; rfl⟩)))))))

theorem goodEntry_store (h x : Nat) (st : StoreType) :
    GoodEntry h (storeKeyStr h st) (encodeVal x) := by
  cases st with
  | base =>
    exact Or.inr (Or.inr (Or.inr (Or.inr (Or.inr (Or.inr (Or.inl
      ⟨rfl, by rw [decodeVal_encodeVal]; rfl⟩))))))
  | account =>
    exact Or.inr (Or.inr (Or.inr (Or.inr (Or.inr (Or.inr (Or.inr (Or.inr
      ⟨rfl, by rw [decodeVal_encodeVal]; rfl⟩)))))))

theorem read_block_header_eq (h : Nat) (db : DB) :
    read_block_header h db =
      match dbGet (headerKeyStr h) db with
      | some v =>
        match (decodeVal v : Option Header) with
        | some hd => .ok (some hd)
        | none => .error .borshCodingError
      | none => .ok none := by
  unfold read_block_header
  rw [keyPush_sep_free (by decide)]
  rfl

/-- C1: committing a valid block state write `W` on a backend whose
height-scoped namespace for `W.height` is untouched round-trips: the write
succeeds and `read_last_block` immediately after reproduces every field of
`W` (height, epoch, predecessor epochs, hash, address generator, next-epoch
thresholds, merkle tree stores, results); the header is reproduced by
`read_block_header` exactly when one was supplied on write. -/
theorem write_block_roundtrip (W : BlockStateWrite) (db : DB)
    (hs : DBSorted db)
    (hfresh : ∀ kv ∈ db,
      (!lexLt kv.1 (rangeLo W.height) && lexLt kv.1 (rangeHi W.height)) = false) :
    ∃ db', write_block W db = .ok db' ∧
      read_last_block db' = .ok (some
        { merkle_tree_stores := W.merkle_tree_stores.toRead
          hash := W.hash
          height := W.height
          epoch := W.epoch
          pred_epochs := W.pred_epochs
          next_epoch_min_start_height := W.next_epoch_min_start_height
          next_epoch_min_start_time := W.next_epoch_min_start_time
          address_gen := W.address_gen
          results := W.results }) ∧
      read_block_header W.height db' = .ok W.header := by
  rcases hW : W.header with _ | hd
  · have hwb : write_block W db = .ok (wbState W db) := by
      unfold write_block wbState
      rw [hW]
      rfl
    have hget_height : dbGet (heightStr) (wbState W db) = some (encodeVal W.height) := by
      simp only [wbState, hW]
      have n1 : (heightStr) ≠ (resultsPre ++ rawHeight W.height) := cons_ne_head (by decide)
      rw [dbGet_insert_ne n1, dbGet_insert_self]
    have hget_res : dbGet (resultsPre ++ rawHeight W.height) (wbState W db) = some (encodeVal W.results) := by
      simp only [wbState, hW]
      rw [dbGet_insert_self]
    have hget_nh : dbGet (nextHeightStr) (wbState W db) = some (encodeVal W.next_epoch_min_start_height) := by
      simp only [wbState, hW]
      have n1 : (nextHeightStr) ≠ (resultsPre ++ rawHeight W.height) := cons_ne_head (by decide)
      have n2 : (nextHeightStr) ≠ (heightStr) := by decide
      have n3 : (nextHeightStr) ≠ (addressGenKeyStr W.height) := (heightScoped_ne_head (by decide) (by decide)).symm
      have n4 : (nextHeightStr) ≠ (predEpochsKeyStr W.height) := (heightScoped_ne_head (by decide) (by decide)).symm
      have n5 : (nextHeightStr) ≠ (epochKeyStr W.height) := (heightScoped_ne_head (by decide) (by decide)).symm
      have n6 : (nextHeightStr) ≠ (hashKeyStr W.height) := (heightScoped_ne_head (by decide) (by decide)).symm
      have n7 : (nextHeightStr) ≠ (storeKeyStr W.height StoreType.account) := (heightScoped_ne_head (by decide) (by decide)).symm
      have n8 : (nextHeightStr) ≠ (rootKeyStr W.height StoreType.account) := (heightScoped_ne_head (by decide) (by decide)).symm
      have n9 : (nextHeightStr) ≠ (storeKeyStr W.height StoreType.base) := (heightScoped_ne_head (by decide) (by decide)).symm
      have n10 : (nextHeightStr) ≠ (rootKeyStr W.height StoreType.base) := (heightScoped_ne_head (by decide) (by decide)).symm
      have n11 : (nextHeightStr) ≠ (nextTimeStr) := by decide
      rw [dbGet_insert_ne n1, dbGet_insert_ne n2, dbGet_insert_ne n3, dbGet_insert_ne n4, dbGet_insert_ne n5, dbGet_insert_ne n6, dbGet_insert_ne n7, dbGet_insert_ne n8, dbGet_insert_ne n9, dbGet_insert_ne n10, dbGet_insert_ne n11, dbGet_insert_self]
    have hget_nt : dbGet (nextTimeStr) (wbState W db) = some (encodeVal W.next_epoch_min_start_time) := by
      simp only [wbState, hW]
      have n1 : (nextTimeStr) ≠ (resultsPre ++ rawHeight W.height) := cons_ne_head (by decide)
      have n2 : (nextTimeStr) ≠ (heightStr) := by decide
      have n3 : (nextTimeStr) ≠ (addressGenKeyStr W.height) := (heightScoped_ne_head (by decide) (by decide)).symm
      have n4 : (nextTimeStr) ≠ (predEpochsKeyStr W.height) := (heightScoped_ne_head (by decide) (by decide)).symm
      have n5 : (nextTimeStr) ≠ (epochKeyStr W.height) := (heightScoped_ne_head (by decide) (by decide)).symm
      have n6 : (nextTimeStr) ≠ (hashKeyStr W.height) := (heightScoped_ne_head (by decide) (by decide)).symm
      have n7 : (nextTimeStr) ≠ (storeKeyStr W.height StoreType.account) := (heightScoped_ne_head (by decide) (by decide)).symm
      have n8 : (nextTimeStr) ≠ (rootKeyStr W.height StoreType.account) := (heightScoped_ne_head (by decide) (by decide)).symm
      have n9 : (nextTimeStr) ≠ (storeKeyStr W.height StoreType.base) := (heightScoped_ne_head (by decide) (by decide)).symm
      have n10 : (nextTimeStr) ≠ (rootKeyStr W.height StoreType.base) := (heightScoped_ne_head (by decide) (by decide)).symm
      rw [dbGet_insert_ne n1, dbGet_insert_ne n2, dbGet_insert_ne n3, dbGet_insert_ne n4, dbGet_insert_ne n5, dbGet_insert_ne n6, dbGet_insert_ne n7, dbGet_insert_ne n8, dbGet_insert_ne n9, dbGet_insert_ne n10, dbGet_insert_self]
    have hget_hash : dbGet (hashKeyStr W.height) (wbState W db) = some (encodeVal W.hash) := by
      simp only [wbState, hW]
      have n1 : (hashKeyStr W.height) ≠ (resultsPre ++ rawHeight W.height) := heightScoped_ne_head (by decide) (by decide)
      have n2 : (hashKeyStr W.height) ≠ (heightStr) := heightScoped_ne_head (by decide) (by decide)
      have n3 : (hashKeyStr W.height) ≠ (addressGenKeyStr W.height) := heightScoped_ne (by decide)
      have n4 : (hashKeyStr W.height) ≠ (predEpochsKeyStr W.height) := heightScoped_ne (by decide)
      have n5 : (hashKeyStr W.height) ≠ (epochKeyStr W.height) := heightScoped_ne (by decide)
      rw [dbGet_insert_ne n1, dbGet_insert_ne n2, dbGet_insert_ne n3, dbGet_insert_ne n4, dbGet_insert_ne n5, dbGet_insert_self]
    have hget_epoch : dbGet (epochKeyStr W.height) (wbState W db) = some (encodeVal W.epoch) := by
      simp only [wbState, hW]
      have n1 : (epochKeyStr W.height) ≠ (resultsPre ++ rawHeight W.height) := heightScoped_ne_head (by decide) (by decide)
      have n2 : (epochKeyStr W.height) ≠ (heightStr) := heightScoped_ne_head (by decide) (by decide)
      have n3 : (epochKeyStr W.height) ≠ (addressGenKeyStr W.height) := heightScoped_ne (by decide)
      have n4 : (epochKeyStr W.height) ≠ (predEpochsKeyStr W.height) := heightScoped_ne (by decide)
      rw [dbGet_insert_ne n1, dbGet_insert_ne n2, dbGet_insert_ne n3, dbGet_insert_ne n4, dbGet_insert_self]
    have hget_pred : dbGet (predEpochsKeyStr W.height) (wbState W db) = some (encodeVal W.pred_epochs) := by
      simp only [wbState, hW]
      have n1 : (predEpochsKeyStr W.height) ≠ (resultsPre ++ rawHeight W.height) := heightScoped_ne_head (by decide) (by decide)
      have n2 : (predEpochsKeyStr W.height) ≠ (heightStr) := heightScoped_ne_head (by decide) (by decide)
      have n3 : (predEpochsKeyStr W.height) ≠ (addressGenKeyStr W.height) := heightScoped_ne (by decide)
      rw [dbGet_insert_ne n1, dbGet_insert_ne n2, dbGet_insert_ne n3, dbGet_insert_self]
    have hget_addr : dbGet (addressGenKeyStr W.height) (wbState W db) = some (encodeVal W.address_gen) := by
      simp only [wbState, hW]
      have n1 : (addressGenKeyStr W.height) ≠ (resultsPre ++ rawHeight W.height) := heightScoped_ne_head (by decide) (by decide)
      have n2 : (addressGenKeyStr W.height) ≠ (heightStr) := heightScoped_ne_head (by decide) (by decide)
      rw [dbGet_insert_ne n1, dbGet_insert_ne n2, dbGet_insert_self]
    have hget_bR : dbGet (rootKeyStr W.height StoreType.base) (wbState W db) = some (encodeVal (W.merkle_tree_stores.root StoreType.base)) := by
      simp only [wbState, hW]
      have n1 : (rootKeyStr W.height StoreType.base) ≠ (resultsPre ++ rawHeight W.height) := heightScoped_ne_head (by decide) (by decide)
      have n2 : (rootKeyStr W.height StoreType.base) ≠ (heightStr) := heightScoped_ne_head (by decide) (by decide)
      have n3 : (rootKeyStr W.height StoreType.base) ≠ (addressGenKeyStr W.height) := heightScoped_ne (by decide)
      have n4 : (rootKeyStr W.height StoreType.base) ≠ (predEpochsKeyStr W.height) := heightScoped_ne (by decide)
      have n5 : (rootKeyStr W.height StoreType.base) ≠ (epochKeyStr W.height) := heightScoped_ne (by decide)
      have n6 : (rootKeyStr W.height StoreType.base) ≠ (hashKeyStr W.height) := heightScoped_ne (by decide)
      have n7 : (rootKeyStr W.height StoreType.base) ≠ (storeKeyStr W.height StoreType.account) := heightScoped_ne (by decide)
      have n8 : (rootKeyStr W.height StoreType.base) ≠ (rootKeyStr W.height StoreType.account) := heightScoped_ne (by decide)
      have n9 : (rootKeyStr W.height StoreType.base) ≠ (storeKeyStr W.height StoreType.base) := heightScoped_ne (by decide)
      rw [dbGet_insert_ne n1, dbGet_insert_ne n2, dbGet_insert_ne n3, dbGet_insert_ne n4, dbGet_insert_ne n5, dbGet_insert_ne n6, dbGet_insert_ne n7, dbGet_insert_ne n8, dbGet_insert_ne n9, dbGet_insert_self]
    have hget_bS : dbGet (storeKeyStr W.height StoreType.base) (wbState W db) = some (storeEncode (W.merkle_tree_stores.store StoreType.base)) := by
      simp only [wbState, hW]
      have n1 : (storeKeyStr W.height StoreType.base) ≠ (resultsPre ++ rawHeight W.height) := heightScoped_ne_head (by decide) (by decide)
      have n2 : (storeKeyStr W.height StoreType.base) ≠ (heightStr) := heightScoped_ne_head (by decide) (by decide)
      have n3 : (storeKeyStr W.height StoreType.base) ≠ (addressGenKeyStr W.height) := heightScoped_ne (by decide)
      have n4 : (storeKeyStr W.height StoreType.base) ≠ (predEpochsKeyStr W.height) := heightScoped_ne (by decide)
      have n5 : (storeKeyStr W.height StoreType.base) ≠ (epochKeyStr W.height) := heightScoped_ne (by decide)
      have n6 : (storeKeyStr W.height StoreType.base) ≠ (hashKeyStr W.height) := heightScoped_ne (by decide)
      have n7 : (storeKeyStr W.height StoreType.base) ≠ (storeKeyStr W.height StoreType.account) := heightScoped_ne (by decide)
      have n8 : (storeKeyStr W.height StoreType.base) ≠ (rootKeyStr W.height StoreType.account) := heightScoped_ne (by decide)
      rw [dbGet_insert_ne n1, dbGet_insert_ne n2, dbGet_insert_ne n3, dbGet_insert_ne n4, dbGet_insert_ne n5, dbGet_insert_ne n6, dbGet_insert_ne n7, dbGet_insert_ne n8, dbGet_insert_self]
    have hget_aR : dbGet (rootKeyStr W.height StoreType.account) (wbState W db) = some (encodeVal (W.merkle_tree_stores.root StoreType.account)) := by
      simp only [wbState, hW]
      have n1 : (rootKeyStr W.height StoreType.account) ≠ (resultsPre ++ rawHeight W.height) := heightScoped_ne_head (by decide) (by decide)
      have n2 : (rootKeyStr W.height StoreType.account) ≠ (heightStr) := heightScoped_ne_head (by decide) (by decide)
      have n3 : (rootKeyStr W.height StoreType.account) ≠ (addressGenKeyStr W.height) := heightScoped_ne (by decide)
      have n4 : (rootKeyStr W.height StoreType.account) ≠ (predEpochsKeyStr W.height) := heightScoped_ne (by decide)
      have n5 : (rootKeyStr W.height StoreType.account) ≠ (epochKeyStr W.height) := heightScoped_ne (by decide)
      have n6 : (rootKeyStr W.height StoreType.account) ≠ (hashKeyStr W.height) := heightScoped_ne (by decide)
      have n7 : (rootKeyStr W.height StoreType.account) ≠ (storeKeyStr W.height StoreType.account) := heightScoped_ne (by decide)
      rw [dbGet_insert_ne n1, dbGet_insert_ne n2, dbGet_insert_ne n3, dbGet_insert_ne n4, dbGet_insert_ne n5, dbGet_insert_ne n6, dbGet_insert_ne n7, dbGet_insert_self]
    have hget_aS : dbGet (storeKeyStr W.height StoreType.account) (wbState W db) = some (storeEncode (W.merkle_tree_stores.store StoreType.account)) := by
      simp only [wbState, hW]
      have n1 : (storeKeyStr W.height StoreType.account) ≠ (resultsPre ++ rawHeight W.height) := heightScoped_ne_head (by decide) (by decide)
      have n2 : (storeKeyStr W.height StoreType.account) ≠ (heightStr) := heightScoped_ne_head (by decide) (by decide)
      have n3 : (storeKeyStr W.height StoreType.account) ≠ (addressGenKeyStr W.height) := heightScoped_ne (by decide)
      have n4 : (storeKeyStr W.height StoreType.account) ≠ (predEpochsKeyStr W.height) := heightScoped_ne (by decide)
      have n5 : (storeKeyStr W.height StoreType.account) ≠ (epochKeyStr W.height) := heightScoped_ne (by decide)
      have n6 : (storeKeyStr W.height StoreType.account) ≠ (hashKeyStr W.height) := heightScoped_ne (by decide)
      rw [dbGet_insert_ne n1, dbGet_insert_ne n2, dbGet_insert_ne n3, dbGet_insert_ne n4, dbGet_insert_ne n5, dbGet_insert_ne n6, dbGet_insert_self]
    have hdbnone : dbGet (headerKeyStr W.height) db = none := by
      cases hgd : dbGet (headerKeyStr W.height) db with
      | none => rfl
      | some v =>
        have hmem := dbGet_mem hgd
        have hfv := hfresh _ hmem
        have hin : (!lexLt (headerKeyStr W.height) (rangeLo W.height) && lexLt (headerKeyStr W.height) (rangeHi W.height)) = true :=
          inRange_heightScoped W.height ("header".data)
        exact absurd (hfv.symm.trans hin) (by decide)
    have hget_hdr : dbGet (headerKeyStr W.height) (wbState W db) = none := by
      simp only [wbState, hW]
      have n1 : (headerKeyStr W.height) ≠ (resultsPre ++ rawHeight W.height) := heightScoped_ne_head (by decide) (by decide)
      have n2 : (headerKeyStr W.height) ≠ (heightStr) := heightScoped_ne_head (by decide) (by decide)
      have n3 : (headerKeyStr W.height) ≠ (addressGenKeyStr W.height) := heightScoped_ne (by decide)
      have n4 : (headerKeyStr W.height) ≠ (predEpochsKeyStr W.height) := heightScoped_ne (by decide)
      have n5 : (headerKeyStr W.height) ≠ (epochKeyStr W.height) := heightScoped_ne (by decide)
      have n6 : (headerKeyStr W.height) ≠ (hashKeyStr W.height) := heightScoped_ne (by decide)
      have n7 : (headerKeyStr W.height) ≠ (storeKeyStr W.height StoreType.account) := heightScoped_ne (by decide)
      have n8 : (headerKeyStr W.height) ≠ (rootKeyStr W.height StoreType.account) := heightScoped_ne (by decide)
      have n9 : (headerKeyStr W.height) ≠ (storeKeyStr W.height StoreType.base) := heightScoped_ne (by decide)
      have n10 : (headerKeyStr W.height) ≠ (rootKeyStr W.height StoreType.base) := heightScoped_ne (by decide)
      have n11 : (headerKeyStr W.height) ≠ (nextTimeStr) := heightScoped_ne_head (by decide) (by decide)
      have n12 : (headerKeyStr W.height) ≠ (nextHeightStr) := heightScoped_ne_head (by decide) (by decide)
      rw [dbGet_insert_ne n1, dbGet_insert_ne n2, dbGet_insert_ne n3, dbGet_insert_ne n4, dbGet_insert_ne n5, dbGet_insert_ne n6, dbGet_insert_ne n7, dbGet_insert_ne n8, dbGet_insert_ne n9, dbGet_insert_ne n10, dbGet_insert_ne n11, dbGet_insert_ne n12, hdbnone]
    have hsort_wb : DBSorted (wbState W db) := by
      simp only [wbState, hW]
      repeat apply dbInsert_sorted
      exact hs
    have hrange_good : ∀ kv ∈ dbRange (rangeLo W.height) (rangeHi W.height) (wbState W db),
        GoodEntry W.height kv.1 kv.2 := by
      intro kv hkv
      obtain ⟨hmem0, hP0⟩ := List.mem_filter.1 hkv
      have hP : (!lexLt kv.1 (rangeLo W.height) && lexLt kv.1 (rangeHi W.height)) = true := hP0
      have hmem : kv ∈ wbState W db := hmem0
      simp only [wbState, hW] at hmem
      rcases dbInsert_mem hmem with rfl | hmem
      · exact absurd (((notInRange_head W.height (by decide) (by decide) : (!lexLt (resultsPre ++ rawHeight W.height) (rangeLo W.height) && lexLt (resultsPre ++ rawHeight W.height) (rangeHi W.height)) = false)).symm.trans hP) (by decide)
      rcases dbInsert_mem hmem with rfl | hmem
      · exact absurd (((notInRange_head W.height (by decide) (by decide) : (!lexLt (heightStr) (rangeLo W.height) && lexLt (heightStr) (rangeHi W.height)) = false)).symm.trans hP) (by decide)
      rcases dbInsert_mem hmem with rfl | hmem
      · exact goodEntry_addr W.height _
      rcases dbInsert_mem hmem with rfl | hmem
      · exact goodEntry_pred W.height _
      rcases dbInsert_mem hmem with rfl | hmem
      · exact goodEntry_epoch W.height _
      rcases dbInsert_mem hmem with rfl | hmem
      · exact goodEntry_hash W.height _
      rcases dbInsert_mem hmem with rfl | hmem
      · exact goodEntry_store W.height _ StoreType.account
      rcases dbInsert_mem hmem with rfl | hmem
      · exact goodEntry_root W.height _ StoreType.account
      rcases dbInsert_mem hmem with rfl | hmem
      · exact goodEntry_store W.height _ StoreType.base
      rcases dbInsert_mem hmem with rfl | hmem
      · exact goodEntry_root W.height _ StoreType.base
      rcases dbInsert_mem hmem with rfl | hmem
      · exact absurd (((notInRange_head W.height (by decide) (by decide) : (!lexLt (nextTimeStr) (rangeLo W.height) && lexLt (nextTimeStr) (rangeHi W.height)) = false)).symm.trans hP) (by decide)
      rcases dbInsert_mem hmem with rfl | hmem
      · exact absurd (((notInRange_head W.height (by decide) (by decide) : (!lexLt (nextHeightStr) (rangeLo W.height) && lexLt (nextHeightStr) (rangeHi W.height)) = false)).symm.trans hP) (by decide)
      exact absurd ((hfresh _ hmem).symm.trans hP) (by decide)
    have hrange_uniq : (dbRange (rangeLo W.height) (rangeHi W.height) (wbState W db)).Pairwise
        (fun a b => a.1 ≠ b.1) :=
      List.Pairwise.imp (fun hab => ne_of_lexLt hab) (List.Pairwise.filter _ hsort_wb)
    obtain ⟨acc1, hl, m1, m2, m3, m4, m5, m6, m7, m8⟩ :=
      loadLoop_exact hrange_good hrange_uniq LoadAcc.init
    have e1 := m1 (W.hash) (List.mem_filter.2
      ⟨dbGet_mem hget_hash, inRange_heightScoped W.height ("hash".data)⟩)
    have e2 := m2 (W.epoch) (List.mem_filter.2
      ⟨dbGet_mem hget_epoch, inRange_heightScoped W.height ("epoch".data)⟩)
    have e3 := m3 (W.pred_epochs) (List.mem_filter.2
      ⟨dbGet_mem hget_pred, inRange_heightScoped W.height ("pred_epochs".data)⟩)
    have e4 := m4 (W.address_gen) (List.mem_filter.2
      ⟨dbGet_mem hget_addr, inRange_heightScoped W.height ("address_gen".data)⟩)
    have e5 := m5 (W.merkle_tree_stores.baseRoot) (List.mem_filter.2
      ⟨dbGet_mem hget_bR, inRange_heightScoped W.height (("tree".data ++ '/' :: ("base".data ++ '/' :: "root".data)))⟩)
    have e6 := m6 (W.merkle_tree_stores.baseStore) (List.mem_filter.2
      ⟨dbGet_mem hget_bS, inRange_heightScoped W.height (("tree".data ++ '/' :: ("base".data ++ '/' :: "store".data)))⟩)
    have e7 := m7 (W.merkle_tree_stores.accountRoot) (List.mem_filter.2
      ⟨dbGet_mem hget_aR, inRange_heightScoped W.height (("tree".data ++ '/' :: ("account".data ++ '/' :: "root".data)))⟩)
    have e8 := m8 (W.merkle_tree_stores.accountStore) (List.mem_filter.2
      ⟨dbGet_mem hget_aS, inRange_heightScoped W.height (("tree".data ++ '/' :: ("account".data ++ '/' :: "store".data)))⟩)
    have hst : acc1.merkle_tree_stores = W.merkle_tree_stores.toRead :=
      MerkleTreeStoresRead.ext1 e5 e6 e7 e8
    refine ⟨wbState W db, hwb, ?_, ?_⟩
    · simp only [read_last_block_loop hget_height hget_res hget_nh hget_nt, hl,
        e1, e2, e3, e4, hst]
    · rw [read_block_header_eq]
      rw [hget_hdr]
  · have hwb : write_block W db = .ok (wbState W db) := by
      unfold write_block wbState
      rw [hW]
      rfl
    have hget_height : dbGet (heightStr) (wbState W db) = some (encodeVal W.height) := by
      simp only [wbState, hW]
      have n1 : (heightStr) ≠ (resultsPre ++ rawHeight W.height) := cons_ne_head (by decide)
      rw [dbGet_insert_ne n1, dbGet_insert_self]
    have hget_res : dbGet (resultsPre ++ rawHeight W.height) (wbState W db) = some (encodeVal W.results) := by
      simp only [wbState, hW]
      rw [dbGet_insert_self]
    have hget_nh : dbGet (nextHeightStr) (wbState W db) = some (encodeVal W.next_epoch_min_start_height) := by
      simp only [wbState, hW]
      have n1 : (nextHeightStr) ≠ (resultsPre ++ rawHeight W.height) := cons_ne_head (by decide)
      have n2 : (nextHeightStr) ≠ (heightStr) := by decide
      have n3 : (nextHeightStr) ≠ (addressGenKeyStr W.height) := (heightScoped_ne_head (by decide) (by decide)).symm
      have n4 : (nextHeightStr) ≠ (predEpochsKeyStr W.height) := (heightScoped_ne_head (by decide) (by decide)).symm
      have n5 : (nextHeightStr) ≠ (epochKeyStr W.height) := (heightScoped_ne_head (by decide) (by decide)).symm
      have n6 : (nextHeightStr) ≠ (hashKeyStr W.height) := (heightScoped_ne_head (by decide) (by decide)).symm
      have n7 : (nextHeightStr) ≠ (headerKeyStr W.height) := (heightScoped_ne_head (by decide) (by decide)).symm
      have n8 : (nextHeightStr) ≠ (storeKeyStr W.height StoreType.account) := (heightScoped_ne_head (by decide) (by decide)).symm
      have n9 : (nextHeightStr) ≠ (rootKeyStr W.height StoreType.account) := (heightScoped_ne_head (by decide) (by decide)).symm
      have n10 : (nextHeightStr) ≠ (storeKeyStr W.height StoreType.base) := (heightScoped_ne_head (by decide) (by decide)).symm
      have n11 : (nextHeightStr) ≠ (rootKeyStr W.height StoreType.base) := (heightScoped_ne_head (by decide) (by decide)).symm
      have n12 : (nextHeightStr) ≠ (nextTimeStr) := by decide
      rw [dbGet_insert_ne n1, dbGet_insert_ne n2, dbGet_insert_ne n3, dbGet_insert_ne n4, dbGet_insert_ne n5, dbGet_insert_ne n6, dbGet_insert_ne n7, dbGet_insert_ne n8, dbGet_insert_ne n9, dbGet_insert_ne n10, dbGet_insert_ne n11, dbGet_insert_ne n12, dbGet_insert_self]
    have hget_nt : dbGet (nextTimeStr) (wbState W db) = some (encodeVal W.next_epoch_min_start_time) := by
      simp only [wbState, hW]
      have n1 : (nextTimeStr) ≠ (resultsPre ++ rawHeight W.height) := cons_ne_head (by decide)
      have n2 : (nextTimeStr) ≠ (heightStr) := by decide
      have n3 : (nextTimeStr) ≠ (addressGenKeyStr W.height) := (heightScoped_ne_head (by decide) (by decide)).symm
      have n4 : (nextTimeStr) ≠ (predEpochsKeyStr W.height) := (heightScoped_ne_head (by decide) (by decide)).symm
      have n5 : (nextTimeStr) ≠ (epochKeyStr W.height) := (heightScoped_ne_head (by decide) (by decide)).symm
      have n6 : (nextTimeStr) ≠ (hashKeyStr W.height) := (heightScoped_ne_head (by decide) (by decide)).symm
      have n7 : (nextTimeStr) ≠ (headerKeyStr W.height) := (heightScoped_ne_head (by decide) (by decide)).symm
      have n8 : (nextTimeStr) ≠ (storeKeyStr W.height StoreType.account) := (heightScoped_ne_head (by decide) (by decide)).symm
      have n9 : (nextTimeStr) ≠ (rootKeyStr W.height StoreType.account) := (heightScoped_ne_head (by decide) (by decide)).symm
      have n10 : (nextTimeStr) ≠ (storeKeyStr W.height StoreType.base) := (heightScoped_ne_head (by decide) (by decide)).symm
      have n11 : (nextTimeStr) ≠ (rootKeyStr W.height StoreType.base) := (heightScoped_ne_head (by decide) (by decide)).symm
      rw [dbGet_insert_ne n1, dbGet_insert_ne n2, dbGet_insert_ne n3, dbGet_insert_ne n4, dbGet_insert_ne n5, dbGet_insert_ne n6, dbGet_insert_ne n7, dbGet_insert_ne n8, dbGet_insert_ne n9, dbGet_insert_ne n10, dbGet_insert_ne n11, dbGet_insert_self]
    have hget_hash : dbGet (hashKeyStr W.height) (wbState W db) = some (encodeVal W.hash) := by
      simp only [wbState, hW]
      have n1 : (hashKeyStr W.height) ≠ (resultsPre ++ rawHeight W.height) := heightScoped_ne_head (by decide) (by decide)
      have n2 : (hashKeyStr W.height) ≠ (heightStr) := heightScoped_ne_head (by decide) (by decide)
      have n3 : (hashKeyStr W.height) ≠ (addressGenKeyStr W.height) := heightScoped_ne (by decide)
      have n4 : (hashKeyStr W.height) ≠ (predEpochsKeyStr W.height) := heightScoped_ne (by decide)
      have n5 : (hashKeyStr W.height) ≠ (epochKeyStr W.height) := heightScoped_ne (by decide)
      rw [dbGet_insert_ne n1, dbGet_insert_ne n2, dbGet_insert_ne n3, dbGet_insert_ne n4, dbGet_insert_ne n5, dbGet_insert_self]
    have hget_epoch : dbGet (epochKeyStr W.height) (wbState W db) = some (encodeVal W.epoch) := by
      simp only [wbState, hW]
      have n1 : (epochKeyStr W.height) ≠ (resultsPre ++ rawHeight W.height) := heightScoped_ne_head (by decide) (by decide)
      have n2 : (epochKeyStr W.height) ≠ (heightStr) := heightScoped_ne_head (by decide) (by decide)
      have n3 : (epochKeyStr W.height) ≠ (addressGenKeyStr W.height) := heightScoped_ne (by decide)
      have n4 : (epochKeyStr W.height) ≠ (predEpochsKeyStr W.height) := heightScoped_ne (by decide)
      rw [dbGet_insert_ne n1, dbGet_insert_ne n2, dbGet_insert_ne n3, dbGet_insert_ne n4, dbGet_insert_self]
    have hget_pred : dbGet (predEpochsKeyStr W.height) (wbState W db) = some (encodeVal W.pred_epochs) := by
      simp only [wbState, hW]
      have n1 : (predEpochsKeyStr W.height) ≠ (resultsPre ++ rawHeight W.height) := heightScoped_ne_head (by decide) (by decide)
      have n2 : (predEpochsKeyStr W.height) ≠ (heightStr) := heightScoped_ne_head (by decide) (by decide)
      have n3 : (predEpochsKeyStr W.height) ≠ (addressGenKeyStr W.height) := heightScoped_ne (by decide)
      rw [dbGet_insert_ne n1, dbGet_insert_ne n2, dbGet_insert_ne n3, dbGet_insert_self]
    have hget_addr : dbGet (addressGenKeyStr W.height) (wbState W db) = some (encodeVal W.address_gen) := by
      simp only [wbState, hW]
      have n1 : (addressGenKeyStr W.height) ≠ (resultsPre ++ rawHeight W.height) := heightScoped_ne_head (by decide) (by decide)
      have n2 : (addressGenKeyStr W.height) ≠ (heightStr) := heightScoped_ne_head (by decide) (by decide)
      rw [dbGet_insert_ne n1, dbGet_insert_ne n2, dbGet_insert_self]
    have hget_bR : dbGet (rootKeyStr W.height StoreType.base) (wbState W db) = some (encodeVal (W.merkle_tree_stores.root StoreType.base)) := by
      simp only [wbState, hW]
      have n1 : (rootKeyStr W.height StoreType.base) ≠ (resultsPre ++ rawHeight W.height) := heightScoped_ne_head (by decide) (by decide)
      have n2 : (rootKeyStr W.height StoreType.base) ≠ (heightStr) := heightScoped_ne_head (by decide) (by decide)
      have n3 : (rootKeyStr W.height StoreType.base) ≠ (addressGenKeyStr W.height) := heightScoped_ne (by decide)
      have n4 : (rootKeyStr W.height StoreType.base) ≠ (predEpochsKeyStr W.height) := heightScoped_ne (by decide)
      have n5 : (rootKeyStr W.height StoreType.base) ≠ (epochKeyStr W.height) := heightScoped_ne (by decide)
      have n6 : (rootKeyStr W.height StoreType.base) ≠ (hashKeyStr W.height) := heightScoped_ne (by decide)
      have n7 : (rootKeyStr W.height StoreType.base) ≠ (headerKeyStr W.height) := heightScoped_ne (by decide)
      have n8 : (rootKeyStr W.height StoreType.base) ≠ (storeKeyStr W.height StoreType.account) := heightScoped_ne (by decide)
      have n9 : (rootKeyStr W.height StoreType.base) ≠ (rootKeyStr W.height StoreType.account) := heightScoped_ne (by decide)
      have n10 : (rootKeyStr W.height StoreType.base) ≠ (storeKeyStr W.height StoreType.base) := heightScoped_ne (by decide)
      rw [dbGet_insert_ne n1, dbGet_insert_ne n2, dbGet_insert_ne n3, dbGet_insert_ne n4, dbGet_insert_ne n5, dbGet_insert_ne n6, dbGet_insert_ne n7, dbGet_insert_ne n8, dbGet_insert_ne n9, dbGet_insert_ne n10, dbGet_insert_self]
    have hget_bS : dbGet (storeKeyStr W.height StoreType.base) (wbState W db) = some (storeEncode (W.merkle_tree_stores.store StoreType.base)) := by
      simp only [wbState, hW]
      have n1 : (storeKeyStr W.height StoreType.base) ≠ (resultsPre ++ rawHeight W.height) := heightScoped_ne_head (by decide) (by decide)
      have n2 : (storeKeyStr W.height StoreType.base) ≠ (heightStr) := heightScoped_ne_head (by decide) (by decide)
      have n3 : (storeKeyStr W.height StoreType.base) ≠ (addressGenKeyStr W.height) := heightScoped_ne (by decide)
      have n4 : (storeKeyStr W.height StoreType.base) ≠ (predEpochsKeyStr W.height) := heightScoped_ne (by decide)
      have n5 : (storeKeyStr W.height StoreType.base) ≠ (epochKeyStr W.height) := heightScoped_ne (by decide)
      have n6 : (storeKeyStr W.height StoreType.base) ≠ (hashKeyStr W.height) := heightScoped_ne (by decide)
      have n7 : (storeKeyStr W.height StoreType.base) ≠ (headerKeyStr W.height) := heightScoped_ne (by decide)
      have n8 : (storeKeyStr W.height StoreType.base) ≠ (storeKeyStr W.height StoreType.account) := heightScoped_ne (by decide)
      have n9 : (storeKeyStr W.height StoreType.base) ≠ (rootKeyStr W.height StoreType.account) := heightScoped_ne (by decide)
      rw [dbGet_insert_ne n1, dbGet_insert_ne n2, dbGet_insert_ne n3, dbGet_insert_ne n4, dbGet_insert_ne n5, dbGet_insert_ne n6, dbGet_insert_ne n7, dbGet_insert_ne n8, dbGet_insert_ne n9, dbGet_insert_self]
    have hget_aR : dbGet (rootKeyStr W.height StoreType.account) (wbState W db) = some (encodeVal (W.merkle_tree_stores.root StoreType.account)) := by
      simp only [wbState, hW]
      have n1 : (rootKeyStr W.height StoreType.account) ≠ (resultsPre ++ rawHeight W.height) := heightScoped_ne_head (by decide) (by decide)
      have n2 : (rootKeyStr W.height StoreType.account) ≠ (heightStr) := heightScoped_ne_head (by decide) (by decide)
      have n3 : (rootKeyStr W.height StoreType.account) ≠ (addressGenKeyStr W.height) := heightScoped_ne (by decide)
      have n4 : (rootKeyStr W.height StoreType.account) ≠ (predEpochsKeyStr W.height) := heightScoped_ne (by decide)
      have n5 : (rootKeyStr W.height StoreType.account) ≠ (epochKeyStr W.height) := heightScoped_ne (by decide)
      have n6 : (rootKeyStr W.height StoreType.account) ≠ (hashKeyStr W.height) := heightScoped_ne (by decide)
      have n7 : (rootKeyStr W.height StoreType.account) ≠ (headerKeyStr W.height) := heightScoped_ne (by decide)
      have n8 : (rootKeyStr W.height StoreType.account) ≠ (storeKeyStr W.height StoreType.account) := heightScoped_ne (by decide)
      rw [dbGet_insert_ne n1, dbGet_insert_ne n2, dbGet_insert_ne n3, dbGet_insert_ne n4, dbGet_insert_ne n5, dbGet_insert_ne n6, dbGet_insert_ne n7, dbGet_insert_ne n8, dbGet_insert_self]
    have hget_aS : dbGet (storeKeyStr W.height StoreType.account) (wbState W db) = some (storeEncode (W.merkle_tree_stores.store StoreType.account)) := by
      simp only [wbState, hW]
      have n1 : (storeKeyStr W.height StoreType.account) ≠ (resultsPre ++ rawHeight W.height) := heightScoped_ne_head (by decide) (by decide)
      have n2 : (storeKeyStr W.height StoreType.account) ≠ (heightStr) := heightScoped_ne_head (by decide) (by decide)
      have n3 : (storeKeyStr W.height StoreType.account) ≠ (addressGenKeyStr W.height) := heightScoped_ne (by decide)
      have n4 : (storeKeyStr W.height StoreType.account) ≠ (predEpochsKeyStr W.height) := heightScoped_ne (by decide)
      have n5 : (storeKeyStr W.height StoreType.account) ≠ (epochKeyStr W.height) := heightScoped_ne (by decide)
      have n6 : (storeKeyStr W.height StoreType.account) ≠ (hashKeyStr W.height) := heightScoped_ne (by decide)
      have n7 : (storeKeyStr W.height StoreType.account) ≠ (headerKeyStr W.height) := heightScoped_ne (by decide)
      rw [dbGet_insert_ne n1, dbGet_insert_ne n2, dbGet_insert_ne n3, dbGet_insert_ne n4, dbGet_insert_ne n5, dbGet_insert_ne n6, dbGet_insert_ne n7, dbGet_insert_self]
    have hget_hdr : dbGet (headerKeyStr W.height) (wbState W db) = some (encodeVal hd) := by
      simp only [wbState, hW]
      have n1 : (headerKeyStr W.height) ≠ (resultsPre ++ rawHeight W.height) := heightScoped_ne_head (by decide) (by decide)
      have n2 : (headerKeyStr W.height) ≠ (heightStr) := heightScoped_ne_head (by decide) (by decide)
      have n3 : (headerKeyStr W.height) ≠ (addressGenKeyStr W.height) := heightScoped_ne (by decide)
      have n4 : (headerKeyStr W.height) ≠ (predEpochsKeyStr W.height) := heightScoped_ne (by decide)
      have n5 : (headerKeyStr W.height) ≠ (epochKeyStr W.height) := heightScoped_ne (by decide)
      have n6 : (headerKeyStr W.height) ≠ (hashKeyStr W.height) := heightScoped_ne (by decide)
      rw [dbGet_insert_ne n1, dbGet_insert_ne n2, dbGet_insert_ne n3, dbGet_insert_ne n4, dbGet_insert_ne n5, dbGet_insert_ne n6, dbGet_insert_self]
    have hsort_wb : DBSorted (wbState W db) := by
      simp only [wbState, hW]
      repeat apply dbInsert_sorted
      exact hs
    have hrange_good : ∀ kv ∈ dbRange (rangeLo W.height) (rangeHi W.height) (wbState W db),
        GoodEntry W.height kv.1 kv.2 := by
      intro kv hkv
      obtain ⟨hmem0, hP0⟩ := List.mem_filter.1 hkv
      have hP : (!lexLt kv.1 (rangeLo W.height) && lexLt kv.1 (rangeHi W.height)) = true := hP0
      have hmem : kv ∈ wbState W db := hmem0
      simp only [wbState, hW] at hmem
      rcases dbInsert_mem hmem with rfl | hmem
      · exact absurd (((notInRange_head W.height (by decide) (by decide) : (!lexLt (resultsPre ++ rawHeight W.height) (rangeLo W.height) && lexLt (resultsPre ++ rawHeight W.height) (rangeHi W.height)) = false)).symm.trans hP) (by decide)
      rcases dbInsert_mem hmem with rfl | hmem
      · exact absurd (((notInRange_head W.height (by decide) (by decide) : (!lexLt (heightStr) (rangeLo W.height) && lexLt (heightStr) (rangeHi W.height)) = false)).symm.trans hP) (by decide)
      rcases dbInsert_mem hmem with rfl | hmem
      · exact goodEntry_addr W.height _
      rcases dbInsert_mem hmem with rfl | hmem
      · exact goodEntry_pred W.height _
      rcases dbInsert_mem hmem with rfl | hmem
      · exact goodEntry_epoch W.height _
      rcases dbInsert_mem hmem with rfl | hmem
      · exact goodEntry_hash W.height _
      rcases dbInsert_mem hmem with rfl | hmem
      · exact goodEntry_header W.height _
      rcases dbInsert_mem hmem with rfl | hmem
      · exact goodEntry_store W.height _ StoreType.account
      rcases dbInsert_mem hmem with rfl | hmem
      · exact goodEntry_root W.height _ StoreType.account
      rcases dbInsert_mem hmem with rfl | hmem
      · exact goodEntry_store W.height _ StoreType.base
      rcases dbInsert_mem hmem with rfl | hmem
      · exact goodEntry_root W.height _ StoreType.base
      rcases dbInsert_mem hmem with rfl | hmem
      · exact absurd (((notInRange_head W.height (by decide) (by decide) : (!lexLt (nextTimeStr) (rangeLo W.height) && lexLt (nextTimeStr) (rangeHi W.height)) = false)).symm.trans hP) (by decide)
      rcases dbInsert_mem hmem with rfl | hmem
      · exact absurd (((notInRange_head W.height (by decide) (by decide) : (!lexLt (nextHeightStr) (rangeLo W.height) && lexLt (nextHeightStr) (rangeHi W.height)) = false)).symm.trans hP) (by decide)
      exact absurd ((hfresh _ hmem).symm.trans hP) (by decide)
    have hrange_uniq : (dbRange (rangeLo W.height) (rangeHi W.height) (wbState W db)).Pairwise
        (fun a b => a.1 ≠ b.1) :=
      List.Pairwise.imp (fun hab => ne_of_lexLt hab) (List.Pairwise.filter _ hsort_wb)
    obtain ⟨acc1, hl, m1, m2, m3, m4, m5, m6, m7, m8⟩ :=
      loadLoop_exact hrange_good hrange_uniq LoadAcc.init
    have e1 := m1 (W.hash) (List.mem_filter.2
      ⟨dbGet_mem hget_hash, inRange_heightScoped W.height ("hash".data)⟩)
    have e2 := m2 (W.epoch) (List.mem_filter.2
      ⟨dbGet_mem hget_epoch, inRange_heightScoped W.height ("epoch".data)⟩)
    have e3 := m3 (W.pred_epochs) (List.mem_filter.2
      ⟨dbGet_mem hget_pred, inRange_heightScoped W.height ("pred_epochs".data)⟩)
    have e4 := m4 (W.address_gen) (List.mem_filter.2
      ⟨dbGet_mem hget_addr, inRange_heightScoped W.height ("address_gen".data)⟩)
    have e5 := m5 (W.merkle_tree_stores.baseRoot) (List.mem_filter.2
      ⟨dbGet_mem hget_bR, inRange_heightScoped W.height (("tree".data ++ '/' :: ("base".data ++ '/' :: "root".data)))⟩)
    have e6 := m6 (W.merkle_tree_stores.baseStore) (List.mem_filter.2
      ⟨dbGet_mem hget_bS, inRange_heightScoped W.height (("tree".data ++ '/' :: ("base".data ++ '/' :: "store".data)))⟩)
    have e7 := m7 (W.merkle_tree_stores.accountRoot) (List.mem_filter.2
      ⟨dbGet_mem hget_aR, inRange_heightScoped W.height (("tree".data ++ '/' :: ("account".data ++ '/' :: "root".data)))⟩)
    have e8 := m8 (W.merkle_tree_stores.accountStore) (List.mem_filter.2
      ⟨dbGet_mem hget_aS, inRange_heightScoped W.height (("tree".data ++ '/' :: ("account".data ++ '/' :: "store".data)))⟩)
    have hst : acc1.merkle_tree_stores = W.merkle_tree_stores.toRead :=
      MerkleTreeStoresRead.ext1 e5 e6 e7 e8
    refine ⟨wbState W db, hwb, ?_, ?_⟩
    · simp only [read_last_block_loop hget_height hget_res hget_nh hget_nt, hl,
        e1, e2, e3, e4, hst]
    · rw [read_block_header_eq]
      rw [hget_hdr]
      simp only [decodeVal_encodeVal]

/-- Witness for C1: the round-trip theorem applied to a concrete write on
the empty backend, whose hypotheses hold by computation. -/
theorem write_block_roundtrip_witness :
    DBSorted ([] : DB) ∧
    (∀ kv ∈ ([] : DB),
      (!lexLt kv.1 (rangeLo wRoundtrip.height) &&
        lexLt kv.1 (rangeHi wRoundtrip.height)) = false) ∧
    (∃ db', write_block wRoundtrip [] = .ok db' ∧
      read_last_block db' = .ok (some
        { merkle_tree_stores := wRoundtrip.merkle_tree_stores.toRead
          hash := wRoundtrip.hash
          height := wRoundtrip.height
          epoch := wRoundtrip.epoch
          pred_epochs := wRoundtrip.pred_epochs
          next_epoch_min_start_height := wRoundtrip.next_epoch_min_start_height
          next_epoch_min_start_time := wRoundtrip.next_epoch_min_start_time
          address_gen := wRoundtrip.address_gen
          results := wRoundtrip.results }) ∧
      read_block_header wRoundtrip.height db' = .ok wRoundtrip.header) :=
  ⟨by decide, by decide, write_block_roundtrip wRoundtrip [] (by decide) (by decide)⟩
